import Mathlib

/-!
Shallow embedding of `src/azul/src/app_resources.rs` (the frame-scoped
resource cache with generational garbage collection of the azul repository).

Rust `HashMap`s and `HashSet`s are modelled as association lists / lists;
iteration order of a hash map is some arbitrary order of its entries, which
an association list represents faithfully.  Backend key generation
(`RenderApi::generate_*_key`) is modelled by threading a natural-number
counter: each minted key is the current counter value and the counter is
incremented, giving fresh, never-reused keys.  A Rust panic (`unwrap()` on
`None`, `HashMap` indexing with a missing key) is modelled by `Option`:
`none` is the panic.
-/

namespace Azul

/-- Association-list lookup, modelling `HashMap::get`. -/
def lookupA {α β : Type} [DecidableEq α] (k : α) : List (α × β) → Option β
  | [] => none
  | p :: rest => if k = p.1 then some p.2 else lookupA k rest

/-- Association-list insert-or-replace, modelling `HashMap::insert`
(replaces the value in place if the key is present, appends otherwise). -/
def insertA {α β : Type} [DecidableEq α] (k : α) (v : β) : List (α × β) → List (α × β)
  | [] => [(k, v)]
  | p :: rest => if k = p.1 then (k, v) :: rest else p :: insertA k v rest

/-- Association-list removal, modelling `HashMap::remove`. -/
def removeA {α β : Type} [DecidableEq α] (k : α) : List (α × β) → List (α × β)
  | [] => []
  | p :: rest => if k = p.1 then removeA k rest else p :: removeA k rest

/-- Boolean set membership, modelling `HashSet::contains`. -/
def containsB {α : Type} [DecidableEq α] (l : List α) (x : α) : Bool :=
  match l with
  | [] => false
  | y :: rest => if x = y then true else containsB rest x

/-- Keys of an association list. -/
def keysOf {α β : Type} (m : List (α × β)) : List α := m.map Prod.fst

/-- `HashSet::extend`: insert every element of `new` that is not yet present. -/
def extendSet {α : Type} [DecidableEq α] (acc new : List α) : List α :=
  new.foldl (fun a k => if containsB a k then a else a ++ [k]) acc

/-- `HashMap::extend`: insert (replacing on key collision) every pair of `new`. -/
def extendMap {α β : Type} [DecidableEq α] (acc new : List (α × β)) : List (α × β) :=
  new.foldl (fun a p => insertA p.1 p.2 a) acc

/-! ## Data model (`app_resources.rs` types) -/

/-- `Au`, the app_units font size unit (used purely as a map key here). -/
abbrev Au := Nat

abbrev FontKey := Nat
abbrev FontInstanceKey := Nat
abbrev ImageKey := Nat
/-- `ImageId { id: usize }`. -/
abbrev ImageId := Nat
/-- `FontId { id: usize }`. -/
abbrev FontId := Nat
abbrev CssImageId := String
abbrev CssFontId := String

/-- `enum ImmediateFontId { Resolved(FontId), Unresolved(CssFontId) }`. -/
inductive ImmediateFontId : Type
  | Resolved : FontId → ImmediateFontId
  | Unresolved : CssFontId → ImmediateFontId
deriving DecidableEq

/-- `enum RawImageFormat` (webrender `ImageFormat`), restricted to the two
variants `is_image_opaque` handles (`BGRA8`, `R8`). -/
inductive RawImageFormat : Type
  | BGRA8 : RawImageFormat
  | R8 : RawImageFormat
deriving DecidableEq

/-- `struct RawImage { pixels, image_dimensions, data_format }`. -/
structure RawImage : Type where
  pixels : List Nat
  image_width : Nat
  image_height : Nat
  data_format : RawImageFormat
deriving DecidableEq

/-- `enum ImageSource { Embedded(&[u8]), Raw(RawImage), File(PathBuf) }`. -/
inductive ImageSource : Type
  | Embedded : List Nat → ImageSource
  | Raw : RawImage → ImageSource
  | File : String → ImageSource
deriving DecidableEq

/-- `enum FontSource { Embedded(&[u8]), File(PathBuf), System(String) }`. -/
inductive FontSource : Type
  | Embedded : List Nat → FontSource
  | File : String → FontSource
  | System : String → FontSource
deriving DecidableEq

/-- `enum ImageReloadError { Io(..), DecodingError(..), DecodingModuleNotActive }`. -/
inductive ImageReloadError : Type
  | Io : String → ImageReloadError
  | DecodingError : ImageReloadError
  | DecodingModuleNotActive : ImageReloadError
deriving DecidableEq

/-- `enum FontReloadError { Io(..), FontNotFound(String) }`. -/
inductive FontReloadError : Type
  | Io : String → FontReloadError
  | FontNotFound : String → FontReloadError
deriving DecidableEq

/-- webrender `ImageDescriptor` (the fields `ImageDescriptor::new` receives). -/
structure ImageDescriptor : Type where
  width : Int
  height : Int
  format : RawImageFormat
  opaqueFlag : Bool
  allow_mipmaps : Bool
deriving DecidableEq

/-- webrender `ImageData` (a byte buffer). -/
abbrev ImageData := List Nat

/-- `struct ImageInfo { key: ImageKey, descriptor: ImageDescriptor }`. -/
structure ImageInfo : Type where
  key : ImageKey
  descriptor : ImageDescriptor
deriving DecidableEq

/-- `struct LoadedFont { font_key, font_bytes, font_index, font_instances }`. -/
structure LoadedFont : Type where
  font_key : FontKey
  font_bytes : List Nat
  font_index : Int
  font_instances : List (Au × FontInstanceKey)
deriving DecidableEq

/-- `LoadedFont::new`: a loaded font with 0 font instances. -/
def LoadedFont.new (font_key : FontKey) (font_bytes : List Nat) (font_index : Int) :
    LoadedFont :=
  { font_key := font_key, font_bytes := font_bytes, font_index := font_index,
    font_instances := [] }

/-- `LoadedFont::delete_font_instance`: `self.font_instances.remove(size)`. -/
def LoadedFont.delete_font_instance (f : LoadedFont) (size : Au) : LoadedFont :=
  { f with font_instances := removeA size f.font_instances }

/-! ## External collaborators (file system, decoders, system fonts)

`fs::read`, `decode_image_data` and `load_system_font` are external to the
cache; they are modelled as an explicit environment of pure functions, plus
the `image_loading` compile-time feature flag. -/

structure Env : Type where
  image_loading : Bool
  read_file : String → Except Unit (List Nat)
  decode_image_data : List Nat → Except Unit (ImageData × ImageDescriptor)
  load_system_font : String → Option (List Nat × Int)

/-- `is_image_opaque` (`app_resources.rs` lines 1140-1155). -/
def is_image_opaque (format : RawImageFormat) (bytes : List Nat) : Bool :=
  match format with
  | RawImageFormat.BGRA8 =>
      (List.range (bytes.length / 4)).all (fun i => bytes.getD (i * 4 + 3) 0 == 255)
  | RawImageFormat.R8 => true

/-- `ImageSource::get_bytes` (lines 192-235): returns decoded bytes and the
descriptor, or an `ImageReloadError`. -/
def ImageSource.get_bytes (env : Env) : ImageSource →
    Except ImageReloadError (ImageData × ImageDescriptor)
  | ImageSource.Embedded bytes =>
      if env.image_loading then
        match env.decode_image_data bytes with
        | Except.ok r => Except.ok r
        | Except.error _ => Except.error ImageReloadError.DecodingError
      else Except.error ImageReloadError.DecodingModuleNotActive
  | ImageSource.Raw raw_image =>
      let opq := is_image_opaque raw_image.data_format raw_image.pixels
      let descriptor : ImageDescriptor :=
        { width := (raw_image.image_width : Int), height := (raw_image.image_height : Int),
          format := raw_image.data_format, opaqueFlag := opq, allow_mipmaps := true }
      Except.ok (raw_image.pixels, descriptor)
  | ImageSource.File file_path =>
      if env.image_loading then
        match env.read_file file_path with
        | Except.ok bytes =>
            match env.decode_image_data bytes with
            | Except.ok r => Except.ok r
            | Except.error _ => Except.error ImageReloadError.DecodingError
        | Except.error _ => Except.error (ImageReloadError.Io file_path)
      else Except.error ImageReloadError.DecodingModuleNotActive

/-- `FontSource::get_bytes` (lines 237-254): bytes of the font plus the index
into the font collection. -/
def FontSource.get_bytes (env : Env) : FontSource →
    Except FontReloadError (List Nat × Int)
  | FontSource.Embedded bytes => Except.ok (bytes, 0)
  | FontSource.File file_path =>
      match env.read_file file_path with
      | Except.ok f => Except.ok (f, 0)
      | Except.error _ => Except.error (FontReloadError.Io file_path)
  | FontSource.System id =>
      match env.load_system_font id with
      | some r => Except.ok r
      | none => Except.error (FontReloadError.FontNotFound id)

/-! ## The cache state (`struct AppResources`)

The process-global `AtomicUsize` counters (`IMAGE_ID_COUNTER`,
`FONT_ID_COUNTER`, `TEXT_ID_COUNTER`) are carried in the state. -/

structure AppResources : Type where
  css_ids_to_image_ids : List (CssImageId × ImageId)
  css_ids_to_font_ids : List (CssFontId × FontId)
  image_sources : List (ImageId × ImageSource)
  font_sources : List (FontId × FontSource)
  currently_registered_images : List (ImageId × ImageInfo)
  currently_registered_fonts : List (ImmediateFontId × LoadedFont)
  last_frame_image_keys : List ImageId
  last_frame_font_keys : List (ImmediateFontId × List Au)
  text_cache : List (Nat × List String)
  image_id_counter : Nat
  font_id_counter : Nat
  text_id_counter : Nat
deriving DecidableEq

/-- The freshly constructed cache (`AppResources::new`): all maps empty. -/
def AppResources.empty : AppResources :=
  { css_ids_to_image_ids := [], css_ids_to_font_ids := [],
    image_sources := [], font_sources := [],
    currently_registered_images := [], currently_registered_fonts := [],
    last_frame_image_keys := [], last_frame_font_keys := [],
    text_cache := [], image_id_counter := 0, font_id_counter := 0,
    text_id_counter := 0 }

/-! ## Alias registry operations (lines 447-483) -/

/-- `add_css_image_id`: `css_ids_to_image_ids.entry(css_id).or_insert_with(ImageId::new)`. -/
def add_css_image_id (s : AppResources) (css_id : CssImageId) : ImageId × AppResources :=
  match lookupA css_id s.css_ids_to_image_ids with
  | some id => (id, s)
  | none =>
      (s.image_id_counter,
       { s with
          css_ids_to_image_ids :=
            insertA css_id s.image_id_counter s.css_ids_to_image_ids,
          image_id_counter := s.image_id_counter + 1 })

/-- `get_css_image_id`: `css_ids_to_image_ids.get(css_id)`. -/
def get_css_image_id (s : AppResources) (css_id : CssImageId) : Option ImageId :=
  lookupA css_id s.css_ids_to_image_ids

/-- `delete_css_image_id`: `css_ids_to_image_ids.remove(css_id)` (returns the
removed value). -/
def delete_css_image_id (s : AppResources) (css_id : CssImageId) :
    Option ImageId × AppResources :=
  (lookupA css_id s.css_ids_to_image_ids,
   { s with css_ids_to_image_ids := removeA css_id s.css_ids_to_image_ids })

/-- `add_css_font_id`: `css_ids_to_font_ids.entry(css_id).or_insert_with(FontId::new)`. -/
def add_css_font_id (s : AppResources) (css_id : CssFontId) : FontId × AppResources :=
  match lookupA css_id s.css_ids_to_font_ids with
  | some id => (id, s)
  | none =>
      (s.font_id_counter,
       { s with
          css_ids_to_font_ids :=
            insertA css_id s.font_id_counter s.css_ids_to_font_ids,
          font_id_counter := s.font_id_counter + 1 })

/-- `get_css_font_id`. -/
def get_css_font_id (s : AppResources) (css_id : CssFontId) : Option FontId :=
  lookupA css_id s.css_ids_to_font_ids

/-- `delete_css_font_id`. -/
def delete_css_font_id (s : AppResources) (css_id : CssFontId) :
    Option FontId × AppResources :=
  (lookupA css_id s.css_ids_to_font_ids,
   { s with css_ids_to_font_ids := removeA css_id s.css_ids_to_font_ids })

/-! ## Reconciler messages (lines 640-691) -/

/-- webrender `AddFontInstance` (the fields filled in by
`build_add_font_resource_updates`; the constant `options` /
`platform_options` / `variations` payloads are omitted). -/
structure AddFontInstance : Type where
  key : FontInstanceKey
  font_key : FontKey
  glyph_size : Au
deriving DecidableEq

/-- `enum AddFontMsg { Font(LoadedFont), Instance(AddFontInstance, Au) }`. -/
inductive AddFontMsg : Type
  | Font : LoadedFont → AddFontMsg
  | Instance : AddFontInstance → Au → AddFontMsg
deriving DecidableEq

/-- `enum DeleteFontMsg { Font(FontKey), Instance(FontInstanceKey, Au) }`. -/
inductive DeleteFontMsg : Type
  | Font : FontKey → DeleteFontMsg
  | Instance : FontInstanceKey → Au → DeleteFontMsg
deriving DecidableEq

/-- webrender `AddImage { key, data, descriptor, tiling: None }`. -/
structure AddImage : Type where
  key : ImageKey
  data : ImageData
  descriptor : ImageDescriptor
deriving DecidableEq

/-- `struct AddImageMsg(AddImage, ImageInfo)`. -/
structure AddImageMsg : Type where
  add_image : AddImage
  info : ImageInfo
deriving DecidableEq

/-- `struct DeleteImageMsg(ImageKey, ImageInfo)`. -/
structure DeleteImageMsg : Type where
  key : ImageKey
  info : ImageInfo
deriving DecidableEq

/-- webrender `ResourceUpdate`. `AddFont::Raw(key, bytes, index as u32)`
carries the index cast to `u32` (two's-complement wrap, hence `% 2 ^ 32`). -/
inductive ResourceUpdate : Type
  | AddFont : FontKey → List Nat → Nat → ResourceUpdate
  | AddFontInstance : AddFontInstance → ResourceUpdate
  | DeleteFont : FontKey → ResourceUpdate
  | DeleteFontInstance : FontInstanceKey → ResourceUpdate
  | AddImage : AddImage → ResourceUpdate
  | DeleteImage : ImageKey → ResourceUpdate
deriving DecidableEq

/-- `AddFontMsg::into_resource_update`. -/
def AddFontMsg.into_resource_update : AddFontMsg → ResourceUpdate
  | AddFontMsg.Font f =>
      ResourceUpdate.AddFont f.font_key f.font_bytes ((f.font_index % (2 ^ 32 : Int)).toNat)
  | AddFontMsg.Instance fi _ => ResourceUpdate.AddFontInstance fi

/-- `DeleteFontMsg::into_resource_update`. -/
def DeleteFontMsg.into_resource_update : DeleteFontMsg → ResourceUpdate
  | DeleteFontMsg.Font f => ResourceUpdate.DeleteFont f
  | DeleteFontMsg.Instance fi _ => ResourceUpdate.DeleteFontInstance fi

/-- `AddImageMsg::into_resource_update`. -/
def AddImageMsg.into_resource_update (m : AddImageMsg) : ResourceUpdate :=
  ResourceUpdate.AddImage m.add_image

/-- `DeleteImageMsg::into_resource_update`. -/
def DeleteImageMsg.into_resource_update (m : DeleteImageMsg) : ResourceUpdate :=
  ResourceUpdate.DeleteImage m.key

/-- A call made on the `FontImageApi` backend gateway. -/
inductive BackendCall : Type
  | update_resources : List ResourceUpdate → BackendCall
  | flush_scene_builder : BackendCall
deriving DecidableEq

/-! ## Add phase (lines 701-876) -/

/-- The `insert_font_instances!` macro body (lines 712-763): checks whether
the `(font id, size)` instance already exists in `currently_registered_fonts`
and, if not, mints a fresh instance key and pushes an `Instance` record.
Returns the pushed records and the advanced key counter. -/
def insert_font_instances (s : AppResources) (font_id : ImmediateFontId)
    (font_key : FontKey) (font_size : Au) (ctr : Nat) :
    List (ImmediateFontId × AddFontMsg) × Nat :=
  let font_instance_key_exists :=
    (Option.bind (lookupA font_id s.currently_registered_fonts)
      (fun loaded_font => lookupA font_size loaded_font.font_instances)).isSome
  if font_instance_key_exists then ([], ctr)
  else
    ([(font_id, AddFontMsg.Instance
        { key := ctr, font_key := font_key, glyph_size := font_size } font_size)],
     ctr + 1)

/-- `insert_font_instances!` applied to each size of a size list in order. -/
def insert_instances_list (s : AppResources) (font_id : ImmediateFontId)
    (font_key : FontKey) : List Au → Nat → List (ImmediateFontId × AddFontMsg) × Nat
  | [], ctr => ([], ctr)
  | font_size :: rest, ctr =>
      let r1 := insert_font_instances s font_id font_key font_size ctr
      let r2 := insert_instances_list s font_id font_key rest r1.2
      (r1.1 ++ r2.1, r2.2)

/-- The font source resolution of the not-resident branch (lines 775-783):
a resolved id looks up the source store (`continue` when absent, here
`none`), an unresolved alias is a system font lookup by that name. -/
def font_source_of (s : AppResources) : ImmediateFontId → Option FontSource
  | ImmediateFontId.Resolved font_id => lookupA font_id s.font_sources
  | ImmediateFontId.Unresolved css_font_id =>
      some (FontSource.System css_font_id)

/-- One iteration of the `for (im_font_id, font_sizes) in fonts_in_dom` loop of
`build_add_font_resource_updates` (lines 710-806). -/
def add_font_updates_for_id (env : Env) (s : AppResources)
    (im_font_id : ImmediateFontId) (font_sizes : List Au) (ctr : Nat) :
    List (ImmediateFontId × AddFontMsg) × Nat :=
  match lookupA im_font_id s.currently_registered_fonts with
  | some loaded_font =>
      insert_instances_list s im_font_id loaded_font.font_key font_sizes ctr
  | none =>
      match font_source_of s im_font_id with
      | none => ([], ctr)
      | some font_source =>
          match font_source.get_bytes env with
          | Except.error _ => ([], ctr)
          | Except.ok fb =>
              if font_sizes.isEmpty then ([], ctr)
              else
                let font_key := ctr
                let r := insert_instances_list s im_font_id font_key font_sizes (ctr + 1)
                ((im_font_id, AddFontMsg.Font (LoadedFont.new font_key fb.1 fb.2)) :: r.1,
                 r.2)

/-- `build_add_font_resource_updates` (lines 701-809), the key-minting
`RenderApi` threaded as the counter `ctr`. -/
def build_add_font_resource_updates (env : Env) (s : AppResources) :
    List (ImmediateFontId × List Au) → Nat → List (ImmediateFontId × AddFontMsg) × Nat
  | [], ctr => ([], ctr)
  | (im_font_id, font_sizes) :: rest, ctr =>
      let r1 := add_font_updates_for_id env s im_font_id font_sizes ctr
      let r2 := build_add_font_resource_updates env s rest r1.2
      (r1.1 ++ r2.1, r2.2)

/-- `build_add_image_resource_updates` (lines 820-843): for each referenced
image that is not yet registered, load its bytes and, on success, mint a key
and emit an `AddImageMsg`. -/
def build_add_image_resource_updates (env : Env) (s : AppResources) :
    List ImageId → Nat → List (ImageId × AddImageMsg) × Nat
  | [], ctr => ([], ctr)
  | image_id :: rest, ctr =>
      if (lookupA image_id s.currently_registered_images).isSome then
        build_add_image_resource_updates env s rest ctr
      else
        match lookupA image_id s.image_sources with
        | none => build_add_image_resource_updates env s rest ctr
        | some src =>
            match src.get_bytes env with
            | Except.error _ => build_add_image_resource_updates env s rest ctr
            | Except.ok dd =>
                let key := ctr
                let r := build_add_image_resource_updates env s rest (ctr + 1)
                ((image_id,
                  { add_image := { key := key, data := dd.1, descriptor := dd.2 },
                    info := { key := key, descriptor := dd.2 } }) :: r.1,
                 r.2)

/-- The font-application loop of `add_resources` (lines 869-875):
`Font` inserts a fresh `LoadedFont`, `Instance` does
`currently_registered_fonts.get_mut(&font_id).unwrap().font_instances.insert(..)`;
the `unwrap()` panic is `none`. -/
def apply_add_font_msgs :
    AppResources → List (ImmediateFontId × AddFontMsg) → Option AppResources
  | s, [] => some s
  | s, (font_id, AddFontMsg.Font f) :: rest =>
      apply_add_font_msgs
        { s with
            currently_registered_fonts :=
              insertA font_id (LoadedFont.new f.font_key f.font_bytes f.font_index)
                s.currently_registered_fonts }
        rest
  | s, (font_id, AddFontMsg.Instance fi size) :: rest =>
      match lookupA font_id s.currently_registered_fonts with
      | none => none
      | some loaded_font =>
          apply_add_font_msgs
            { s with
                currently_registered_fonts :=
                  insertA font_id
                    { loaded_font with
                        font_instances :=
                          insertA size fi.key loaded_font.font_instances }
                    s.currently_registered_fonts }
            rest

/-- `add_resources` (lines 849-876): merge the records (image records after
font records), submit them in one `update_resources` call followed by
`flush_scene_builder` (both skipped when the merged list is empty), then
insert the added images and apply the font records in order.  Returns the
new state (`none` on `unwrap()` panic) and the backend call trace. -/
def add_resources (s : AppResources)
    (add_font_resources : List (ImmediateFontId × AddFontMsg))
    (add_image_resources : List (ImageId × AddImageMsg)) :
    Option AppResources × List BackendCall :=
  let merged_resource_updates :=
    add_font_resources.map (fun p => p.2.into_resource_update) ++
    add_image_resources.map (fun p => p.2.into_resource_update)
  let calls :=
    if merged_resource_updates.isEmpty then []
    else [BackendCall.update_resources merged_resource_updates,
          BackendCall.flush_scene_builder]
  let s1 :=
    { s with
        currently_registered_images :=
          add_image_resources.foldl (fun m p => insertA p.1 p.2.info m)
            s.currently_registered_images }
  (apply_add_font_msgs s1 add_font_resources, calls)

/-! ## Delete phase (lines 878-935) -/

/-- The instance-deletion `extend` of one loop iteration of
`build_delete_font_resource_updates` (lines 886-890).  The code filters
`loaded_font.font_instances` with
`app_resources.last_frame_font_keys[font_id].contains(au)`; the `HashMap`
indexing panics when `font_id` has no entry, which (since the closure only
runs when there is at least one instance) is modelled by `none` exactly when
the instance list is nonempty and the key is absent. -/
def delete_instance_msgs (last_frame_font_keys : List (ImmediateFontId × List Au))
    (font_id : ImmediateFontId) (font_instances : List (Au × FontInstanceKey)) :
    Option (List (ImmediateFontId × DeleteFontMsg)) :=
  match font_instances with
  | [] => some []
  | _ :: _ =>
      match lookupA font_id last_frame_font_keys with
      | none => none
      | some aus =>
          some ((font_instances.filter (fun p => containsB aus p.1)).map
            (fun p => (font_id, DeleteFontMsg.Instance p.2 p.1)))

/-- The `for (font_id, loaded_font) in currently_registered_fonts` loop of
`build_delete_font_resource_updates` (lines 885-895): extend with the
filtered instance deletions, then push a `Font` deletion when the id has no
entry in `last_frame_font_keys` or the (pre-pruning) instance map is empty. -/
def build_delete_font_go (s : AppResources) :
    List (ImmediateFontId × LoadedFont) →
    Option (List (ImmediateFontId × DeleteFontMsg))
  | [] => some []
  | (font_id, loaded_font) :: rest =>
      match delete_instance_msgs s.last_frame_font_keys font_id
              loaded_font.font_instances with
      | none => none
      | some inst_msgs =>
          match build_delete_font_go s rest with
          | none => none
          | some rest_msgs =>
              let font_del :=
                if (lookupA font_id s.last_frame_font_keys).isNone ||
                   loaded_font.font_instances.isEmpty then
                  [(font_id, DeleteFontMsg.Font loaded_font.font_key)]
                else []
              some (inst_msgs ++ font_del ++ rest_msgs)

/-- `build_delete_font_resource_updates` (lines 878-898). -/
def build_delete_font_resource_updates (s : AppResources) :
    Option (List (ImmediateFontId × DeleteFontMsg)) :=
  build_delete_font_go s s.currently_registered_fonts

/-- `build_delete_image_resource_updates` (lines 901-908): every registered
image whose id is not in `last_frame_image_keys`. -/
def build_delete_image_resource_updates (s : AppResources) :
    List (ImageId × DeleteImageMsg) :=
  (s.currently_registered_images.filter
    (fun p => !(containsB s.last_frame_image_keys p.1))).map
    (fun p => (p.1, { key := p.2.key, info := p.2 }))

/-- The font-deletion loop of `delete_resources` (lines 928-934): `Font`
removes the whole entry, `Instance` does
`get_mut(&font_id).unwrap().delete_font_instance(&size)` (panic is `none`). -/
def apply_delete_font_msgs :
    AppResources → List (ImmediateFontId × DeleteFontMsg) → Option AppResources
  | s, [] => some s
  | s, (font_id, DeleteFontMsg.Font _) :: rest =>
      apply_delete_font_msgs
        { s with
            currently_registered_fonts :=
              removeA font_id s.currently_registered_fonts }
        rest
  | s, (font_id, DeleteFontMsg.Instance _ size) :: rest =>
      match lookupA font_id s.currently_registered_fonts with
      | none => none
      | some loaded_font =>
          apply_delete_font_msgs
            { s with
                currently_registered_fonts :=
                  insertA font_id (loaded_font.delete_font_instance size)
                    s.currently_registered_fonts }
            rest

/-- `delete_resources` (lines 910-935): merge the delete records (image
records after font records), submit them in one `update_resources` call when
nonempty (no flush), then remove the deleted images and apply the font
deletions in order. -/
def delete_resources (s : AppResources)
    (delete_font_resources : List (ImmediateFontId × DeleteFontMsg))
    (delete_image_resources : List (ImageId × DeleteImageMsg)) :
    Option AppResources × List BackendCall :=
  let merged_resource_updates :=
    delete_font_resources.map (fun p => p.2.into_resource_update) ++
    delete_image_resources.map (fun p => p.2.into_resource_update)
  let calls :=
    if merged_resource_updates.isEmpty then []
    else [BackendCall.update_resources merged_resource_updates]
  let s1 :=
    { s with
        currently_registered_images :=
          delete_image_resources.foldl (fun m p => removeA p.1 m)
            s.currently_registered_images }
  (apply_delete_font_msgs s1 delete_font_resources, calls)

/-! ## Per-frame drivers (lines 544-570) -/

/-- `add_fonts_and_images` (lines 544-555) with the scene-scanner output
(`font_keys`, `image_keys`) passed in: extend the frame trackers, build the
font and image add-batches, and run `add_resources`.  Returns the state
(`none` on panic), the backend call trace, and the advanced key counter. -/
def add_fonts_and_images (env : Env) (s : AppResources)
    (font_keys : List (ImmediateFontId × List Au)) (image_keys : List ImageId)
    (ctr : Nat) : Option AppResources × List BackendCall × Nat :=
  let s0 :=
    { s with
        last_frame_font_keys := extendMap s.last_frame_font_keys font_keys,
        last_frame_image_keys := extendSet s.last_frame_image_keys image_keys }
  let rf := build_add_font_resource_updates env s0 font_keys ctr
  let ri := build_add_image_resource_updates env s0 image_keys rf.2
  let ra := add_resources s0 rf.1 ri.1
  (ra.1, ra.2, ri.2)

/-- `garbage_collect_fonts_and_images` (lines 561-570): build the delete
batches, run `delete_resources`, then clear both frame trackers.
`none` models a panic inside the delete phase. -/
def garbage_collect_fonts_and_images (s : AppResources) :
    Option (AppResources × List BackendCall) :=
  match build_delete_font_resource_updates s with
  | none => none
  | some delete_font_resource_updates =>
      let delete_image_resource_updates := build_delete_image_resource_updates s
      let rd := delete_resources s delete_font_resource_updates
                  delete_image_resource_updates
      match rd.1 with
      | none => none
      | some s1 =>
          some ({ s1 with last_frame_font_keys := [], last_frame_image_keys := [] },
                rd.2)

/-- One full frame cycle per §2 of the control flow (scan output given):
add phase, then (after the frame is drawn) the delete phase.  Returns the
new state plus the advanced backend key counter, or `none` on a panic. -/
def run_frame_cycle (env : Env) (font_keys : List (ImmediateFontId × List Au))
    (image_keys : List ImageId) (s : AppResources) (ctr : Nat) :
    Option (AppResources × Nat) :=
  match add_fonts_and_images env s font_keys image_keys ctr with
  | (none, _, _) => none
  | (some s1, _, c1) =>
      match garbage_collect_fonts_and_images s1 with
      | none => none
      | some r => some (r.1, c1)

/-! ## Association-list lemmas -/

theorem lookupA_insertA_self {α β : Type} [DecidableEq α] (k : α) (v : β)
    (m : List (α × β)) : lookupA k (insertA k v m) = some v := by
  induction m with
  | nil => simp [insertA, lookupA]
  | cons p rest ih =>
      by_cases h : k = p.1
      · simp [insertA, h, lookupA]
      · simp [insertA, h, lookupA, ih]

theorem lookupA_insertA_ne {α β : Type} [DecidableEq α] {k k' : α} (v : β)
    (m : List (α × β)) (h : k ≠ k') :
    lookupA k (insertA k' v m) = lookupA k m := by
  induction m with
  | nil => simp [insertA, lookupA, h]
  | cons p rest ih =>
      by_cases h2 : k' = p.1
      · subst h2
        simp [insertA, lookupA, h]
      · by_cases h3 : k = p.1
        · simp [insertA, h2, lookupA, h3]
        · simp [insertA, h2, lookupA, h3, ih]

theorem lookupA_removeA_self {α β : Type} [DecidableEq α] (k : α)
    (m : List (α × β)) : lookupA k (removeA k m) = none := by
  induction m with
  | nil => simp [removeA, lookupA]
  | cons p rest ih =>
      by_cases h : k = p.1
      · subst h
        simp [removeA, ih]
      · simp [removeA, h, lookupA, ih]

theorem lookupA_removeA_ne {α β : Type} [DecidableEq α] {k k' : α}
    (m : List (α × β)) (h : k ≠ k') :
    lookupA k (removeA k' m) = lookupA k m := by
  induction m with
  | nil => simp [removeA, lookupA]
  | cons p rest ih =>
      by_cases h2 : k' = p.1
      · subst h2
        simp [removeA, lookupA, h, ih]
      · by_cases h3 : k = p.1
        · simp [removeA, h2, lookupA, h3]
        · simp [removeA, h2, lookupA, h3, ih]

theorem containsB_iff_mem {α : Type} [DecidableEq α] (l : List α) (x : α) :
    containsB l x = true ↔ x ∈ l := by
  induction l with
  | nil => simp [containsB]
  | cons y rest ih =>
      by_cases h : x = y
      · simp [containsB, h]
      · simp [containsB, h, ih]

theorem lookupA_isSome_iff_mem_keys {α β : Type} [DecidableEq α] (k : α)
    (m : List (α × β)) : (lookupA k m).isSome = true ↔ k ∈ keysOf m := by
  induction m with
  | nil => simp [lookupA, keysOf]
  | cons p rest ih =>
      by_cases h : k = p.1
      · subst h
        simp [lookupA, keysOf]
      · simp [lookupA, h, keysOf, ih]

theorem mem_of_lookupA_eq_some {α β : Type} [DecidableEq α] {k : α} {v : β}
    {m : List (α × β)} (h : lookupA k m = some v) : (k, v) ∈ m := by
  induction m with
  | nil => simp [lookupA] at h
  | cons p rest ih =>
      by_cases h2 : k = p.1
      · rw [lookupA, if_pos h2] at h
        injection h with h3
        have hkv : (k, v) = p := by rw [h2, ← h3]
        rw [hkv]
        exact List.mem_cons_self p rest
      · rw [lookupA, if_neg h2] at h
        exact List.mem_cons_of_mem _ (ih h)

theorem lookupA_eq_some_of_mem_nodup {α β : Type} [DecidableEq α] {k : α}
    {v : β} {m : List (α × β)} (hnd : (keysOf m).Nodup) (h : (k, v) ∈ m) :
    lookupA k m = some v := by
  induction m with
  | nil => simp at h
  | cons p rest ih =>
      rw [keysOf, List.map_cons, List.nodup_cons] at hnd
      rcases List.mem_cons.mp h with h1 | h1
      · rw [← h1, lookupA, if_pos rfl]
      · have hk : k ≠ p.1 := by
          intro he
          exact hnd.1 (he ▸ (List.mem_map.mpr ⟨(k, v), h1, rfl⟩))
        rw [lookupA, if_neg hk]
        exact ih hnd.2 h1

theorem mem_insertA {α β : Type} [DecidableEq α] {p : α × β} {k : α} {v : β}
    {m : List (α × β)} (h : p ∈ insertA k v m) : p = (k, v) ∨ p ∈ m := by
  induction m with
  | nil =>
      simp [insertA] at h
      exact Or.inl h
  | cons q rest ih =>
      by_cases h2 : k = q.1
      · rw [insertA, if_pos h2] at h
        rcases List.mem_cons.mp h with h3 | h3
        · exact Or.inl h3
        · exact Or.inr (List.mem_cons_of_mem _ h3)
      · rw [insertA, if_neg h2] at h
        rcases List.mem_cons.mp h with h3 | h3
        · exact Or.inr (h3 ▸ List.mem_cons_self q rest)
        · rcases ih h3 with h4 | h4
          · exact Or.inl h4
          · exact Or.inr (List.mem_cons_of_mem _ h4)

theorem mem_keys_insertA {α β : Type} [DecidableEq α] (x k : α) (v : β)
    (m : List (α × β)) : x ∈ keysOf (insertA k v m) ↔ x = k ∨ x ∈ keysOf m := by
  induction m with
  | nil => simp [insertA, keysOf]
  | cons p rest ih =>
      by_cases h : k = p.1
      · subst h
        simp [insertA, keysOf]
      · rw [insertA, if_neg h]
        rw [keysOf, List.map_cons, List.mem_cons, keysOf] at *
        rw [List.map_cons, List.mem_cons]
        constructor
        · rintro (h2 | h2)
          · exact Or.inr (Or.inl h2)
          · rcases ih.mp h2 with h3 | h3
            · exact Or.inl h3
            · exact Or.inr (Or.inr h3)
        · rintro (h2 | h2 | h2)
          · exact Or.inr (ih.mpr (Or.inl h2))
          · exact Or.inl h2
          · exact Or.inr (ih.mpr (Or.inr h2))

/-! ## Claim C9: batching and flushing discipline -/

/-- Claim C9: per cycle, all add records are merged into one ordered list
with every image record after every font record and submitted in one
`update_resources` call immediately followed by one `flush_scene_builder`
call (both skipped when the merged list is empty); the delete phase submits
its merged records in one `update_resources` call and never calls
`flush_scene_builder`. -/
theorem claim_C9_batching_and_flush (s t : AppResources)
    (add_font_resources : List (ImmediateFontId × AddFontMsg))
    (add_image_resources : List (ImageId × AddImageMsg))
    (delete_font_resources : List (ImmediateFontId × DeleteFontMsg))
    (delete_image_resources : List (ImageId × DeleteImageMsg)) :
    ((add_resources s add_font_resources add_image_resources).2 =
      (if (add_font_resources.map (fun p => p.2.into_resource_update) ++
           add_image_resources.map (fun p => p.2.into_resource_update)).isEmpty
       then []
       else [BackendCall.update_resources
               (add_font_resources.map (fun p => p.2.into_resource_update) ++
                add_image_resources.map (fun p => p.2.into_resource_update)),
             BackendCall.flush_scene_builder])) ∧
    ((delete_resources t delete_font_resources delete_image_resources).2 =
      (if (delete_font_resources.map (fun p => p.2.into_resource_update) ++
           delete_image_resources.map (fun p => p.2.into_resource_update)).isEmpty
       then []
       else [BackendCall.update_resources
               (delete_font_resources.map (fun p => p.2.into_resource_update) ++
                delete_image_resources.map (fun p => p.2.into_resource_update))])) ∧
    BackendCall.flush_scene_builder ∉
      (delete_resources t delete_font_resources delete_image_resources).2 := by
  refine ⟨rfl, rfl, ?_⟩
  show BackendCall.flush_scene_builder ∉
    (if (delete_font_resources.map (fun p => p.2.into_resource_update) ++
         delete_image_resources.map (fun p => p.2.into_resource_update)).isEmpty
     then []
     else [BackendCall.update_resources
             (delete_font_resources.map (fun p => p.2.into_resource_update) ++
              delete_image_resources.map (fun p => p.2.into_resource_update))])
  split
  · simp
  · simp

/-! ## Claim C7: alias registration is idempotent and injective -/

/-- The invariant the monotonic ID counter maintains on an alias registry:
every stored ID is below the counter, and no two aliases share an ID. -/
def registry_ok (m : List (String × Nat)) (ctr : Nat) : Prop :=
  (∀ p ∈ m, p.2 < ctr) ∧ ∀ p ∈ m, ∀ q ∈ m, p.2 = q.2 → p.1 = q.1

theorem registry_ok_insert_fresh {m : List (String × Nat)} {ctr : Nat}
    (hok : registry_ok m ctr) (a : String) :
    registry_ok (insertA a ctr m) (ctr + 1) := by
  constructor
  · intro p hp
    rcases mem_insertA hp with h | h
    · rw [h]
      exact Nat.lt_succ_self ctr
    · exact Nat.lt_succ_of_lt (hok.1 p h)
  · intro p hp q hq hpq
    rcases mem_insertA hp with h1 | h1 <;> rcases mem_insertA hq with h2 | h2
    · rw [h1, h2]
    · exfalso
      rw [h1] at hpq
      exact absurd hpq.symm (Nat.ne_of_lt (hok.1 q h2))
    · exfalso
      rw [h2] at hpq
      exact absurd hpq (Nat.ne_of_lt (hok.1 p h1))
    · exact hok.2 p h1 q h2 hpq

/-- Claim C7: `add_css_image_id` / `add_css_font_id` is idempotent (an
already-registered alias returns its existing ID and leaves the state
unchanged), mints and stores a fresh ID for a fresh alias, preserves the
registry invariant (every sequence of registrations keeps it, starting from
the empty cache), and under that invariant two distinct aliases never
resolve to the same ID. -/
theorem claim_C7_alias_registration :
    (∀ (s : AppResources) (a : String) (i : ImageId),
       lookupA a s.css_ids_to_image_ids = some i →
       add_css_image_id s a = (i, s)) ∧
    (∀ (s : AppResources) (a : String),
       lookupA a s.css_ids_to_image_ids = none →
       (add_css_image_id s a).1 = s.image_id_counter ∧
       lookupA a (add_css_image_id s a).2.css_ids_to_image_ids =
         some s.image_id_counter) ∧
    (∀ (s : AppResources) (a : String),
       registry_ok s.css_ids_to_image_ids s.image_id_counter →
       registry_ok (add_css_image_id s a).2.css_ids_to_image_ids
         (add_css_image_id s a).2.image_id_counter) ∧
    (∀ (s : AppResources) (a b : String) (i j : ImageId),
       registry_ok s.css_ids_to_image_ids s.image_id_counter →
       a ≠ b → lookupA a s.css_ids_to_image_ids = some i →
       lookupA b s.css_ids_to_image_ids = some j → i ≠ j) ∧
    (∀ (s : AppResources) (a : String) (i : FontId),
       lookupA a s.css_ids_to_font_ids = some i →
       add_css_font_id s a = (i, s)) ∧
    (∀ (s : AppResources) (a : String),
       lookupA a s.css_ids_to_font_ids = none →
       (add_css_font_id s a).1 = s.font_id_counter ∧
       lookupA a (add_css_font_id s a).2.css_ids_to_font_ids =
         some s.font_id_counter) ∧
    (∀ (s : AppResources) (a : String),
       registry_ok s.css_ids_to_font_ids s.font_id_counter →
       registry_ok (add_css_font_id s a).2.css_ids_to_font_ids
         (add_css_font_id s a).2.font_id_counter) ∧
    (∀ (s : AppResources) (a b : String) (i j : FontId),
       registry_ok s.css_ids_to_font_ids s.font_id_counter →
       a ≠ b → lookupA a s.css_ids_to_font_ids = some i →
       lookupA b s.css_ids_to_font_ids = some j → i ≠ j) ∧
    registry_ok AppResources.empty.css_ids_to_image_ids
      AppResources.empty.image_id_counter := by
  refine ⟨?_, ?_, ?_, ?_, ?_, ?_, ?_, ?_, ?_⟩
  · intro s a i h
    simp [add_css_image_id, h]
  · intro s a h
    refine ⟨by simp [add_css_image_id, h], ?_⟩
    simp [add_css_image_id, h, lookupA_insertA_self]
  · intro s a hok
    cases hcase : lookupA a s.css_ids_to_image_ids with
    | some i => simpa [add_css_image_id, hcase] using hok
    | none =>
        simpa [add_css_image_id, hcase] using registry_ok_insert_fresh hok a
  · intro s a b i j hok hab ha hb hij
    exact hab (hok.2 (a, i) (mem_of_lookupA_eq_some ha) (b, j)
      (mem_of_lookupA_eq_some hb) hij)
  · intro s a i h
    simp [add_css_font_id, h]
  · intro s a h
    refine ⟨by simp [add_css_font_id, h], ?_⟩
    simp [add_css_font_id, h, lookupA_insertA_self]
  · intro s a hok
    cases hcase : lookupA a s.css_ids_to_font_ids with
    | some i => simpa [add_css_font_id, hcase] using hok
    | none =>
        simpa [add_css_font_id, hcase] using registry_ok_insert_fresh hok a
  · intro s a b i j hok hab ha hb hij
    exact hab (hok.2 (a, i) (mem_of_lookupA_eq_some ha) (b, j)
      (mem_of_lookupA_eq_some hb) hij)
  · exact ⟨by simp [AppResources.empty], by simp [AppResources.empty]⟩

/-- Witness for C7 at concrete inputs. -/
theorem claim_C7_alias_registration_witness :
    lookupA "a" (add_css_image_id AppResources.empty "a").2.css_ids_to_image_ids =
      some 0 ∧
    add_css_image_id (add_css_image_id AppResources.empty "a").2 "a" =
      (0, (add_css_image_id AppResources.empty "a").2) := by
  have h1 := (claim_C7_alias_registration.2.1 AppResources.empty "a" (by decide)).2
  refine ⟨?_, ?_⟩
  · simpa using h1
  · exact claim_C7_alias_registration.1 (add_css_image_id AppResources.empty "a").2 "a" 0
      (by decide)

/-! ## Claim C8: alias removal touches only that mapping -/

/-- Claim C8: `delete_css_image_id` / `delete_css_font_id` returns the
previously mapped ID (`none` if absent), removes exactly that alias's
mapping, and leaves every other alias entry and every other field of the
cache unchanged. -/
theorem claim_C8_alias_removal (s : AppResources) (a : String) :
    ((delete_css_image_id s a).1 = lookupA a s.css_ids_to_image_ids ∧
     lookupA a (delete_css_image_id s a).2.css_ids_to_image_ids = none ∧
     (∀ b, b ≠ a →
        lookupA b (delete_css_image_id s a).2.css_ids_to_image_ids =
          lookupA b s.css_ids_to_image_ids) ∧
     (delete_css_image_id s a).2.css_ids_to_font_ids = s.css_ids_to_font_ids ∧
     (delete_css_image_id s a).2.image_sources = s.image_sources ∧
     (delete_css_image_id s a).2.font_sources = s.font_sources ∧
     (delete_css_image_id s a).2.currently_registered_images =
       s.currently_registered_images ∧
     (delete_css_image_id s a).2.currently_registered_fonts =
       s.currently_registered_fonts ∧
     (delete_css_image_id s a).2.last_frame_image_keys = s.last_frame_image_keys ∧
     (delete_css_image_id s a).2.last_frame_font_keys = s.last_frame_font_keys ∧
     (delete_css_image_id s a).2.text_cache = s.text_cache ∧
     (delete_css_image_id s a).2.image_id_counter = s.image_id_counter ∧
     (delete_css_image_id s a).2.font_id_counter = s.font_id_counter) ∧
    ((delete_css_font_id s a).1 = lookupA a s.css_ids_to_font_ids ∧
     lookupA a (delete_css_font_id s a).2.css_ids_to_font_ids = none ∧
     (∀ b, b ≠ a →
        lookupA b (delete_css_font_id s a).2.css_ids_to_font_ids =
          lookupA b s.css_ids_to_font_ids) ∧
     (delete_css_font_id s a).2.css_ids_to_image_ids = s.css_ids_to_image_ids ∧
     (delete_css_font_id s a).2.image_sources = s.image_sources ∧
     (delete_css_font_id s a).2.font_sources = s.font_sources ∧
     (delete_css_font_id s a).2.currently_registered_images =
       s.currently_registered_images ∧
     (delete_css_font_id s a).2.currently_registered_fonts =
       s.currently_registered_fonts ∧
     (delete_css_font_id s a).2.last_frame_image_keys = s.last_frame_image_keys ∧
     (delete_css_font_id s a).2.last_frame_font_keys = s.last_frame_font_keys ∧
     (delete_css_font_id s a).2.text_cache = s.text_cache ∧
     (delete_css_font_id s a).2.image_id_counter = s.image_id_counter ∧
     (delete_css_font_id s a).2.font_id_counter = s.font_id_counter) := by
  refine ⟨⟨rfl, lookupA_removeA_self a _, ?_, rfl, rfl, rfl, rfl, rfl, rfl, rfl,
           rfl, rfl, rfl⟩,
          ⟨rfl, lookupA_removeA_self a _, ?_, rfl, rfl, rfl, rfl, rfl, rfl, rfl,
           rfl, rfl, rfl⟩⟩
  · intro b hb
    exact lookupA_removeA_ne _ hb
  · intro b hb
    exact lookupA_removeA_ne _ hb

/-- Witness for C8 at a concrete input. -/
theorem claim_C8_alias_removal_witness :
    (delete_css_image_id (add_css_image_id AppResources.empty "a").2 "a").1 =
      some 0 ∧
    ("b" ≠ "a") ∧
    lookupA "b" (delete_css_image_id
        (add_css_image_id AppResources.empty "a").2 "a").2.css_ids_to_image_ids =
      lookupA "b" (add_css_image_id AppResources.empty "a").2.css_ids_to_image_ids := by
  refine ⟨?_, by decide, ?_⟩
  · rw [(claim_C8_alias_removal (add_css_image_id AppResources.empty "a").2 "a").1.1]
    decide
  · exact (claim_C8_alias_removal
      (add_css_image_id AppResources.empty "a").2 "a").1.2.2.1 "b" (by decide)

/-! ## Concrete inputs for the font garbage-collection claims -/

/-- An environment whose system-font lookup knows the single font "F". -/
def envF : Env :=
  { image_loading := false,
    read_file := fun _ => Except.error (),
    decode_image_data := fun _ => Except.error (),
    load_system_font := fun nm => if nm = "F" then some ([7], 0) else none }

/-- The unresolved font identity "F". -/
def fontF : ImmediateFontId := ImmediateFontId.Unresolved "F"

/-- A resident font "F" with font key 0 and one instance (size 10, key 1). -/
def loadedFontTen : LoadedFont :=
  { font_key := 0, font_bytes := [7], font_index := 0, font_instances := [(10, 1)] }

/-- A cache where font "F" is resident with instance size 10, and the current
frame references exactly "F" at size 10. -/
def sReferencedTen : AppResources :=
  { AppResources.empty with
      currently_registered_fonts := [(fontF, loadedFontTen)],
      last_frame_font_keys := [(fontF, [10])] }

/-- A cache where font "F" is resident with instance size 10, but the current
frame's font reference map has no entry for "F" at all. -/
def sMissingEntry : AppResources :=
  { AppResources.empty with
      currently_registered_fonts := [(fontF, loadedFontTen)],
      last_frame_font_keys := [] }

/-! ## Claim C1 -/

/-- Claim C1 (refuted; the code contradicts its own comments): the delete
phase enqueues a delete-font-instance record exactly for the sizes that ARE
in the current frame's reference set (the filter at line 888 lacks the
negation), not for those that are not.  First conjunct: with font "F"
resident at size 10 and the frame referencing exactly size 10, the referenced
instance is enqueued for deletion.  Second conjunct: running the spec's
scenario — referencing "F" at sizes 10 and 12 in one cycle and only size 10
in the next — leaves the font resident with NO instances at all, instead of
the size-10 instance surviving and only size 12 being deleted. -/
theorem claim_C1_referenced_instances_deleted :
    build_delete_font_resource_updates sReferencedTen =
      some [(fontF, DeleteFontMsg.Instance 1 10)] ∧
    (run_frame_cycle envF [(fontF, [10, 12])] [] AppResources.empty 0).bind
        (fun p => (run_frame_cycle envF [(fontF, [10])] [] p.1 p.2).map
          (fun q => q.1.currently_registered_fonts)) =
      some [(fontF, { font_key := 0, font_bytes := [7], font_index := 0,
                      font_instances := [] })] := by
  refine ⟨by decide, by decide⟩

/-! ## Claim C2 -/

/-- Claim C2 (refuted): add-phase plus delete-phase is NOT idempotent for
fonts.  Starting from the empty cache and referencing font "F" at size 10 in
every cycle, the first cycle's delete phase evicts the (referenced) size-10
instance, so the second cycle's add phase produces a non-empty batch (it
re-mints an instance key and re-submits an add-instance update plus a
flush) and residency has changed (the instance is gone). -/
theorem claim_C2_unchanged_refs_not_idempotent :
    (run_frame_cycle envF [(fontF, [10])] [] AppResources.empty 0).map (fun p =>
      (add_fonts_and_images envF p.1 [(fontF, [10])] [] p.2).2.1) =
      some [BackendCall.update_resources
              [ResourceUpdate.AddFontInstance
                { key := 2, font_key := 0, glyph_size := 10 }],
            BackendCall.flush_scene_builder] ∧
    (run_frame_cycle envF [(fontF, [10])] [] AppResources.empty 0).map
        (fun p => p.1.currently_registered_fonts) =
      some [(fontF, { font_key := 0, font_bytes := [7], font_index := 0,
                      font_instances := [] })] := by
  refine ⟨by decide, by decide⟩

/-! ## Claim C3 -/

/-- Claim C3 (refuted): when a resident font identity with a nonempty
instance map has no entry at all in `last_frame_font_keys`, the delete phase
does NOT complete: the `HashMap` indexing `last_frame_font_keys[font_id]`
inside the filter closure panics (modelled as `none`), instead of treating
the identity as having an empty reference set and evicting it. -/
theorem claim_C3_missing_entry_panics :
    build_delete_font_resource_updates sMissingEntry = none ∧
    garbage_collect_fonts_and_images sMissingEntry = none := by
  refine ⟨by decide, by decide⟩

/-! ## Claim C4 -/

/-- Counterexample to claim C4 as stated: with font "F" resident at exactly
size 10 and the frame referencing size 10, this cycle's pruning (which, in
this code, deletes the referenced instance) empties the instance map, so
under the claim's post-pruning reading a delete-font record would be
enqueued and the entry removed — but the record list contains no font-delete
record (the emptiness test ran on the pre-pruning state) and after the
delete phase the font entry is still resident (with an empty instance map). -/
theorem claim_C4_counterexample :
    (build_delete_font_resource_updates sReferencedTen).map
        (fun l => l.filter (fun p =>
          match p.2 with
          | DeleteFontMsg.Font _ => true
          | DeleteFontMsg.Instance _ _ => false)) = some [] ∧
    (garbage_collect_fonts_and_images sReferencedTen).map
        (fun p => p.1.currently_registered_fonts) =
      some [(fontF, { font_key := 0, font_bytes := [7], font_index := 0,
                      font_instances := [] })] := by
  refine ⟨by decide, by decide⟩

/-- Every record produced by the instance-deletion `extend` is an `Instance`
record for the iterated font id. -/
theorem delete_instance_msgs_shape {last : List (ImmediateFontId × List Au)}
    {font_id : ImmediateFontId} {insts : List (Au × FontInstanceKey)}
    {msgs : List (ImmediateFontId × DeleteFontMsg)}
    (h : delete_instance_msgs last font_id insts = some msgs) :
    ∀ p ∈ msgs, ∃ ik au, p = (font_id, DeleteFontMsg.Instance ik au) := by
  cases insts with
  | nil =>
      simp only [delete_instance_msgs] at h
      injection h with h
      subst h
      intro p hp
      simp at hp
  | cons a rest =>
      simp only [delete_instance_msgs] at h
      cases hl : lookupA font_id last with
      | none => rw [hl] at h; exact absurd h (by simp)
      | some aus =>
          rw [hl] at h
          injection h with h
          subst h
          intro p hp
          rcases List.mem_map.mp hp with ⟨q, _, hqe⟩
          exact ⟨q.2, q.1, hqe.symm⟩

/-- Characterization of the delete-font records produced by the delete-phase
loop: a `Font` record for `fid` appears exactly when some iterated resident
entry `(fid, lf)` satisfies the pre-pruning condition `fid` has no entry in
`last_frame_font_keys` or `lf.font_instances` is empty. -/
theorem build_delete_font_go_font_iff (s : AppResources) :
    ∀ (l : List (ImmediateFontId × LoadedFont))
      (ups : List (ImmediateFontId × DeleteFontMsg)),
      build_delete_font_go s l = some ups →
      ∀ fid : ImmediateFontId,
        ((∃ k, (fid, DeleteFontMsg.Font k) ∈ ups) ↔
          ∃ lf, (fid, lf) ∈ l ∧
            ((lookupA fid s.last_frame_font_keys).isNone ||
             lf.font_instances.isEmpty) = true) := by
  intro l
  induction l with
  | nil =>
      intro ups h fid
      simp only [build_delete_font_go] at h
      injection h with h
      subst h
      simp
  | cons hd rest ih =>
      intro ups h fid
      obtain ⟨gid, glf⟩ := hd
      simp only [build_delete_font_go] at h
      cases h1 : delete_instance_msgs s.last_frame_font_keys gid glf.font_instances with
      | none => rw [h1] at h; exact absurd h (by simp)
      | some inst_msgs =>
          rw [h1] at h
          cases h2 : build_delete_font_go s rest with
          | none => rw [h2] at h; exact absurd h (by simp)
          | some rest_msgs =>
              rw [h2] at h
              injection h with h
              subst h
              constructor
              · rintro ⟨k, hk⟩
                rcases List.mem_append.mp hk with hk1 | hk1
                · rcases List.mem_append.mp hk1 with hk2 | hk2
                  · rcases delete_instance_msgs_shape h1 _ hk2 with ⟨ik, au, he⟩
                    exact absurd (congrArg Prod.snd he) (by simp)
                  · by_cases hc : ((lookupA gid s.last_frame_font_keys).isNone ||
                        glf.font_instances.isEmpty) = true
                    · rw [if_pos hc] at hk2
                      rcases List.mem_singleton.mp hk2 with he
                      have hfid : fid = gid := congrArg Prod.fst he
                      subst hfid
                      exact ⟨glf, List.mem_cons_self _ _, hc⟩
                    · rw [if_neg hc] at hk2
                      simp at hk2
                · rcases (ih rest_msgs h2 fid).mp ⟨k, hk1⟩ with ⟨lf, hm, hcond⟩
                  exact ⟨lf, List.mem_cons_of_mem _ hm, hcond⟩
              · rintro ⟨lf, hm, hcond⟩
                rcases List.mem_cons.mp hm with he | hm2
                · rw [Prod.mk.injEq] at he
                  obtain ⟨h1a, h1b⟩ := he
                  refine ⟨glf.font_key, ?_⟩
                  refine List.mem_append.mpr (Or.inl (List.mem_append.mpr (Or.inr ?_)))
                  rw [h1a, h1b] at hcond
                  rw [if_pos hcond]
                  rw [h1a]
                  exact List.mem_singleton.mpr rfl
                · rcases (ih rest_msgs h2 fid).mpr ⟨lf, hm2, hcond⟩ with ⟨k, hk⟩
                  exact ⟨k, List.mem_append.mpr (Or.inr hk)⟩

/-- Applying a delete-font message list removes exactly the ids that carry a
`Font` record (when application does not panic): afterwards an id is absent
from residency iff it was absent before or a delete-font record for it is in
the list. -/
theorem apply_delete_font_msgs_lookup_none :
    ∀ (msgs : List (ImmediateFontId × DeleteFontMsg)) (s1 s2 : AppResources),
      apply_delete_font_msgs s1 msgs = some s2 →
      ∀ fid : ImmediateFontId,
        (lookupA fid s2.currently_registered_fonts = none ↔
          (lookupA fid s1.currently_registered_fonts = none ∨
           ∃ k, (fid, DeleteFontMsg.Font k) ∈ msgs)) := by
  intro msgs
  induction msgs with
  | nil =>
      intro s1 s2 h fid
      simp only [apply_delete_font_msgs] at h
      injection h with h
      subst h
      simp
  | cons hd rest ih =>
      intro s1 s2 h fid
      obtain ⟨gid, msg⟩ := hd
      cases msg with
      | Font k0 =>
          simp only [apply_delete_font_msgs] at h
          have hrec := ih _ s2 h fid
          by_cases hfg : fid = gid
          · subst hfg
            rw [hrec]
            simp [lookupA_removeA_self]
          · rw [hrec, lookupA_removeA_ne _ hfg]
            constructor
            · rintro (h3 | ⟨k, hk⟩)
              · exact Or.inl h3
              · exact Or.inr ⟨k, List.mem_cons_of_mem _ hk⟩
            · rintro (h3 | ⟨k, hk⟩)
              · exact Or.inl h3
              · rcases List.mem_cons.mp hk with he | hm
                · exact absurd (congrArg Prod.fst he) hfg
                · exact Or.inr ⟨k, hm⟩
      | Instance ik sz =>
          simp only [apply_delete_font_msgs] at h
          cases hl : lookupA gid s1.currently_registered_fonts with
          | none => rw [hl] at h; exact absurd h (by simp)
          | some glf =>
              rw [hl] at h
              have hrec := ih _ s2 h fid
              by_cases hfg : fid = gid
              · subst hfg
                rw [hrec, lookupA_insertA_self]
                rw [hl]
                constructor
                · rintro (h3 | ⟨k, hk⟩)
                  · exact absurd h3 (by simp)
                  · exact Or.inr ⟨k, List.mem_cons_of_mem _ hk⟩
                · rintro (h3 | ⟨k, hk⟩)
                  · exact absurd h3 (by simp)
                  · rcases List.mem_cons.mp hk with he | hm
                    · exact absurd (congrArg Prod.snd he) (by simp)
                    · exact Or.inr ⟨k, hm⟩
              · rw [hrec, lookupA_insertA_ne _ _ hfg]
                constructor
                · rintro (h3 | ⟨k, hk⟩)
                  · exact Or.inl h3
                  · exact Or.inr ⟨k, List.mem_cons_of_mem _ hk⟩
                · rintro (h3 | ⟨k, hk⟩)
                  · exact Or.inl h3
                  · rcases List.mem_cons.mp hk with he | hm
                    · exact absurd (congrArg Prod.fst he) hfg
                    · exact Or.inr ⟨k, hm⟩

/-- Claim C4 amended: in the font delete phase (when it completes without
panicking), a delete-font record is enqueued exactly when the identity has
no entry in the current frame's reference map or its instance mapping is
empty on the PRE-pruning resident state (the record list is fully computed
before any mutation), and the resident entry is removed exactly when such a
record was enqueued; a font whose instance mapping becomes empty only as a
result of this cycle's pruning is therefore NOT deleted in this cycle. -/
theorem claim_C4_font_delete_pre_pruning (s : AppResources)
    (ups : List (ImmediateFontId × DeleteFontMsg))
    (h : build_delete_font_resource_updates s = some ups)
    (fid : ImmediateFontId) :
    ((∃ k, (fid, DeleteFontMsg.Font k) ∈ ups) ↔
       ∃ lf, (fid, lf) ∈ s.currently_registered_fonts ∧
         ((lookupA fid s.last_frame_font_keys).isNone ||
          lf.font_instances.isEmpty) = true) ∧
    (∀ (dimgs : List (ImageId × DeleteImageMsg)) (s2 : AppResources),
       (delete_resources s ups dimgs).1 = some s2 →
       (lookupA fid s2.currently_registered_fonts = none ↔
         (lookupA fid s.currently_registered_fonts = none ∨
          ∃ k, (fid, DeleteFontMsg.Font k) ∈ ups))) := by
  constructor
  · exact build_delete_font_go_font_iff s s.currently_registered_fonts ups h fid
  · intro dimgs s2 h2
    exact apply_delete_font_msgs_lookup_none ups _ s2 h2 fid

/-- Witness for the amended C4 at a concrete input. -/
theorem claim_C4_font_delete_pre_pruning_witness :
    (build_delete_font_resource_updates sReferencedTen =
       some [(fontF, DeleteFontMsg.Instance 1 10)]) ∧
    ((∃ k, (fontF, DeleteFontMsg.Font k) ∈
        [(fontF, DeleteFontMsg.Instance 1 10)]) ↔
       ∃ lf, (fontF, lf) ∈ sReferencedTen.currently_registered_fonts ∧
         ((lookupA fontF sReferencedTen.last_frame_font_keys).isNone ||
          lf.font_instances.isEmpty) = true) :=
  ⟨by decide,
   (claim_C4_font_delete_pre_pruning sReferencedTen
     [(fontF, DeleteFontMsg.Instance 1 10)] (by decide) fontF).1⟩

/-! ## Association-list folds used by the image phases -/

theorem mem_keysOf_iff {α β : Type} (x : α) (l : List (α × β)) :
    x ∈ keysOf l ↔ ∃ v, (x, v) ∈ l := by
  rw [keysOf]
  constructor
  · intro h
    rcases List.mem_map.mp h with ⟨p, hp, he⟩
    refine ⟨p.2, ?_⟩
    have hxp : (x, p.2) = p := by
      rw [← he]
    rw [hxp]
    exact hp
  · rintro ⟨v, hv⟩
    exact List.mem_map.mpr ⟨(x, v), hv, rfl⟩

theorem lookupA_foldl_removeA {α β γ : Type} [DecidableEq α] :
    ∀ (l : List (α × γ)) (m : List (α × β)) (x : α),
      lookupA x (l.foldl (fun m p => removeA p.1 m) m) =
        if x ∈ keysOf l then none else lookupA x m := by
  intro l
  induction l with
  | nil =>
      intro m x
      simp [keysOf]
  | cons p rest ih =>
      intro m x
      rw [List.foldl_cons, ih]
      by_cases h : x = p.1
      · have hmem : x ∈ keysOf (p :: rest) := by
          rw [keysOf, List.map_cons]
          exact List.mem_cons.mpr (Or.inl h)
        by_cases h2 : x ∈ keysOf rest
        · rw [if_pos h2, if_pos hmem]
        · rw [if_neg h2, if_pos hmem, h, lookupA_removeA_self]
      · have hks : (x ∈ keysOf (p :: rest)) ↔ x ∈ keysOf rest := by
          simp [keysOf, h]
        by_cases h2 : x ∈ keysOf rest
        · rw [if_pos h2, if_pos (hks.mpr h2)]
        · rw [if_neg h2, if_neg (fun hc => h2 (hks.mp hc)), lookupA_removeA_ne _ h]

theorem lookupA_foldl_insertA_not_mem {α β γ : Type} [DecidableEq α]
    (f : α × γ → β) :
    ∀ (l : List (α × γ)) (m : List (α × β)) (x : α), x ∉ keysOf l →
      lookupA x (l.foldl (fun m p => insertA p.1 (f p) m) m) = lookupA x m := by
  intro l
  induction l with
  | nil =>
      intro m x _
      simp
  | cons p rest ih =>
      intro m x hx
      have hx1 : x ≠ p.1 := by
        intro hc
        apply hx
        rw [keysOf, List.map_cons]
        exact List.mem_cons.mpr (Or.inl hc)
      have hx2 : x ∉ keysOf rest := by
        intro hc
        apply hx
        rw [keysOf, List.map_cons]
        exact List.mem_cons.mpr (Or.inr hc)
      rw [List.foldl_cons, ih _ _ hx2, lookupA_insertA_ne _ _ hx1]

/-! ## State-field preservation of the font apply loops -/

theorem apply_add_font_msgs_fields :
    ∀ (msgs : List (ImmediateFontId × AddFontMsg)) (s1 s2 : AppResources),
      apply_add_font_msgs s1 msgs = some s2 →
      s2.currently_registered_images = s1.currently_registered_images ∧
      s2.last_frame_image_keys = s1.last_frame_image_keys ∧
      s2.last_frame_font_keys = s1.last_frame_font_keys ∧
      s2.image_sources = s1.image_sources ∧
      s2.font_sources = s1.font_sources ∧
      s2.css_ids_to_image_ids = s1.css_ids_to_image_ids ∧
      s2.css_ids_to_font_ids = s1.css_ids_to_font_ids := by
  intro msgs
  induction msgs with
  | nil =>
      intro s1 s2 h
      simp only [apply_add_font_msgs] at h
      injection h with h
      subst h
      exact ⟨rfl, rfl, rfl, rfl, rfl, rfl, rfl⟩
  | cons hd rest ih =>
      intro s1 s2 h
      obtain ⟨fid, msg⟩ := hd
      cases msg with
      | Font f =>
          simp only [apply_add_font_msgs] at h
          have hr := ih _ s2 h
          exact hr
      | Instance fi size =>
          simp only [apply_add_font_msgs] at h
          cases hl : lookupA fid s1.currently_registered_fonts with
          | none => rw [hl] at h; exact absurd h (by simp)
          | some lf =>
              simp only [hl] at h
              have hr := ih _ s2 h
              exact hr

theorem apply_delete_font_msgs_fields :
    ∀ (msgs : List (ImmediateFontId × DeleteFontMsg)) (s1 s2 : AppResources),
      apply_delete_font_msgs s1 msgs = some s2 →
      s2.currently_registered_images = s1.currently_registered_images ∧
      s2.last_frame_image_keys = s1.last_frame_image_keys ∧
      s2.last_frame_font_keys = s1.last_frame_font_keys ∧
      s2.image_sources = s1.image_sources ∧
      s2.font_sources = s1.font_sources := by
  intro msgs
  induction msgs with
  | nil =>
      intro s1 s2 h
      simp only [apply_delete_font_msgs] at h
      injection h with h
      subst h
      exact ⟨rfl, rfl, rfl, rfl, rfl⟩
  | cons hd rest ih =>
      intro s1 s2 h
      obtain ⟨fid, msg⟩ := hd
      cases msg with
      | Font k =>
          simp only [apply_delete_font_msgs] at h
          have hr := ih _ s2 h
          exact hr
      | Instance ik size =>
          simp only [apply_delete_font_msgs] at h
          cases hl : lookupA fid s1.currently_registered_fonts with
          | none => rw [hl] at h; exact absurd h (by simp)
          | some lf =>
              simp only [hl] at h
              have hr := ih _ s2 h
              exact hr

theorem mem_extendSet {α : Type} [DecidableEq α] :
    ∀ (new acc : List α) (x : α), x ∈ extendSet acc new ↔ x ∈ acc ∨ x ∈ new := by
  intro new
  induction new with
  | nil =>
      intro acc x
      simp [extendSet]
  | cons k rest ih =>
      intro acc x
      show x ∈ extendSet (if containsB acc k then acc else acc ++ [k]) rest ↔ _
      rw [ih]
      by_cases hk : containsB acc k = true
      · rw [if_pos hk]
        have hkm : k ∈ acc := (containsB_iff_mem acc k).mp hk
        constructor
        · rintro (h | h)
          · exact Or.inl h
          · exact Or.inr (List.mem_cons_of_mem _ h)
        · rintro (h | h)
          · exact Or.inl h
          · rcases List.mem_cons.mp h with rfl | h2
            · exact Or.inl hkm
            · exact Or.inr h2
      · rw [if_neg hk]
        constructor
        · rintro (h | h)
          · rcases List.mem_append.mp h with h2 | h2
            · exact Or.inl h2
            · have hxk : x = k := List.mem_singleton.mp h2
              refine Or.inr ?_
              rw [hxk]
              exact List.mem_cons_self k rest
          · exact Or.inr (List.mem_cons_of_mem _ h)
        · rintro (h | h)
          · exact Or.inl (List.mem_append.mpr (Or.inl h))
          · rcases List.mem_cons.mp h with rfl | h2
            · exact Or.inl (List.mem_append.mpr (Or.inr (List.mem_singleton.mpr rfl)))
            · exact Or.inr h2

/-! ## Image add / delete phase lemmas -/

/-- Every record of the image add batch is for a not-yet-registered id. -/
theorem build_add_image_not_registered (env : Env) (s : AppResources) :
    ∀ (refs : List ImageId) (ctr : Nat) (id : ImageId) (msg : AddImageMsg),
      (id, msg) ∈ (build_add_image_resource_updates env s refs ctr).1 →
      lookupA id s.currently_registered_images = none := by
  intro refs
  induction refs with
  | nil =>
      intro ctr id msg h
      simp [build_add_image_resource_updates] at h
  | cons r rest ih =>
      intro ctr id msg h
      simp only [build_add_image_resource_updates] at h
      by_cases hreg : (lookupA r s.currently_registered_images).isSome = true
      · rw [if_pos hreg] at h
        exact ih ctr id msg h
      · rw [if_neg hreg] at h
        cases hsrc : lookupA r s.image_sources with
        | none =>
            simp only [hsrc] at h
            exact ih ctr id msg h
        | some src =>
            simp only [hsrc] at h
            cases hb : src.get_bytes env with
            | error e =>
                simp only [hb] at h
                exact ih ctr id msg h
            | ok dd =>
                simp only [hb] at h
                rcases List.mem_cons.mp h with he | hm
                · have hid : id = r := congrArg Prod.fst he
                  subst hid
                  cases hlook : lookupA id s.currently_registered_images with
                  | none => rfl
                  | some info => rw [hlook] at hreg; exact absurd rfl hreg
                · exact ih (ctr + 1) id msg hm

/-- Membership characterization of the image delete batch. -/
theorem build_delete_image_mem (s : AppResources) (id : ImageId)
    (info : ImageInfo) :
    (id, ({ key := info.key, info := info } : DeleteImageMsg)) ∈
        build_delete_image_resource_updates s ↔
      ((id, info) ∈ s.currently_registered_images ∧
       containsB s.last_frame_image_keys id = false) := by
  unfold build_delete_image_resource_updates
  constructor
  · intro h
    rcases List.mem_map.mp h with ⟨p, hp, he⟩
    rcases List.mem_filter.mp hp with ⟨hpm, hpf⟩
    have h1 : p.1 = id := congrArg Prod.fst he
    have h2 : p.2 = info := by
      have := congrArg Prod.snd he
      exact congrArg DeleteImageMsg.info this
    have hpe : p = (id, info) := by
      rw [← h1, ← h2]
    rw [hpe] at hpm
    refine ⟨hpm, ?_⟩
    rw [h1] at hpf
    simpa using hpf
  · rintro ⟨hm, hc⟩
    refine List.mem_map.mpr ⟨(id, info), List.mem_filter.mpr ⟨hm, by simpa using hc⟩, rfl⟩

/-- Key membership of the image delete batch. -/
theorem mem_keys_build_delete_image (s : AppResources) (id : ImageId) :
    id ∈ keysOf (build_delete_image_resource_updates s) ↔
      (id ∈ keysOf s.currently_registered_images ∧
       containsB s.last_frame_image_keys id = false) := by
  unfold build_delete_image_resource_updates
  rw [keysOf, List.map_map]
  constructor
  · intro h
    rcases List.mem_map.mp h with ⟨p, hp, he⟩
    rcases List.mem_filter.mp hp with ⟨hpm, hpf⟩
    have h1 : p.1 = id := he
    refine ⟨List.mem_map.mpr ⟨p, hpm, h1⟩, by rw [← h1]; simpa using hpf⟩
  · rintro ⟨hm, hc⟩
    rcases List.mem_map.mp hm with ⟨p, hp, he⟩
    exact List.mem_map.mpr
      ⟨p, List.mem_filter.mpr ⟨hp, by rw [he]; simpa using hc⟩, he⟩

/-! ## Claim C5: image reconciliation is symmetric and non-thrashing -/

/-- Claim C5: (1) the image delete phase enqueues a deletion exactly for the
resident image ids absent from the current frame's image reference set;
(2) after the delete phase those and only those ids leave residency (an id
survives garbage collection with its info unchanged iff it is referenced);
(3) the image add phase never mints a record (hence never a new key) for an
id already in `currently_registered_images`; (4) an image resident with key
info and referenced again in the next cycle keeps exactly that key through
the cycle's add and delete phases. -/
theorem claim_C5_image_reconciliation :
    (∀ (s : AppResources) (id : ImageId) (info : ImageInfo),
       (id, ({ key := info.key, info := info } : DeleteImageMsg)) ∈
           build_delete_image_resource_updates s ↔
         ((id, info) ∈ s.currently_registered_images ∧
          containsB s.last_frame_image_keys id = false)) ∧
    (∀ (s s2 : AppResources) (calls : List BackendCall),
       garbage_collect_fonts_and_images s = some (s2, calls) →
       ∀ id : ImageId,
         lookupA id s2.currently_registered_images =
           (if containsB s.last_frame_image_keys id then
              lookupA id s.currently_registered_images
            else none)) ∧
    (∀ (env : Env) (s : AppResources) (refs : List ImageId) (ctr : Nat)
       (id : ImageId) (msg : AddImageMsg),
       (id, msg) ∈ (build_add_image_resource_updates env s refs ctr).1 →
       lookupA id s.currently_registered_images = none) ∧
    (∀ (env : Env) (s : AppResources) (font_keys : List (ImmediateFontId × List Au))
       (image_keys : List ImageId) (ctr : Nat) (id : ImageId) (info : ImageInfo)
       (s1 : AppResources) (calls : List BackendCall) (c : Nat),
       lookupA id s.currently_registered_images = some info →
       id ∈ image_keys →
       add_fonts_and_images env s font_keys image_keys ctr = (some s1, calls, c) →
       lookupA id s1.currently_registered_images = some info ∧
       ∀ (s2 : AppResources) (calls2 : List BackendCall),
         garbage_collect_fonts_and_images s1 = some (s2, calls2) →
         lookupA id s2.currently_registered_images = some info) := by
  have hgc : ∀ (s s2 : AppResources) (calls : List BackendCall),
      garbage_collect_fonts_and_images s = some (s2, calls) →
      ∀ id : ImageId,
        lookupA id s2.currently_registered_images =
          (if containsB s.last_frame_image_keys id then
             lookupA id s.currently_registered_images
           else none) := by
    intro s s2 calls h id
    simp only [garbage_collect_fonts_and_images] at h
    cases hdf : build_delete_font_resource_updates s with
    | none => rw [hdf] at h; exact absurd h (by simp)
    | some dfonts =>
        simp only [hdf] at h
        cases hap : (delete_resources s dfonts (build_delete_image_resource_updates s)).1 with
        | none =>
            simp only [hap] at h
            exact absurd h (by simp)
        | some s3 =>
            simp only [hap] at h
            injection h with h
            have hs2 : s2 =
                { s3 with
                    last_frame_font_keys := [],
                    last_frame_image_keys := [] } :=
              (congrArg Prod.fst h).symm
            have himg : s2.currently_registered_images =
                s3.currently_registered_images := by rw [hs2]
            have h3 := (apply_delete_font_msgs_fields dfonts _ s3 hap).1
            rw [himg, h3]
            show lookupA id ((build_delete_image_resource_updates s).foldl
              (fun m p => removeA p.1 m) s.currently_registered_images) = _
            rw [lookupA_foldl_removeA]
            by_cases hc : containsB s.last_frame_image_keys id = true
            · rw [if_pos hc,
                  if_neg (fun hk => by
                    have := (mem_keys_build_delete_image s id).mp hk
                    rw [hc] at this
                    exact absurd this.2 (by simp))]
            · rw [if_neg hc]
              by_cases hreg : id ∈ keysOf s.currently_registered_images
              · rw [if_pos ((mem_keys_build_delete_image s id).mpr
                  ⟨hreg, by simpa using hc⟩)]
              · rw [if_neg (fun hk => hreg ((mem_keys_build_delete_image s id).mp hk).1)]
                cases hlook : lookupA id s.currently_registered_images with
                | none => rfl
                | some v =>
                    exact absurd ((lookupA_isSome_iff_mem_keys id _).mp
                      (by rw [hlook]; rfl)) hreg
  refine ⟨build_delete_image_mem, hgc, build_add_image_not_registered, ?_⟩
  intro env s font_keys image_keys ctr id info s1 calls c hlook hmem hadd
  have h1 : (add_fonts_and_images env s font_keys image_keys ctr).1 = some s1 := by
    rw [hadd]
  set s0 : AppResources :=
    { s with
        last_frame_font_keys := extendMap s.last_frame_font_keys font_keys,
        last_frame_image_keys := extendSet s.last_frame_image_keys image_keys }
    with hs0
  have h2 : apply_add_font_msgs
      { s0 with
          currently_registered_images :=
            (build_add_image_resource_updates env s0 image_keys
              (build_add_font_resource_updates env s0 font_keys ctr).2).1.foldl
              (fun m p => insertA p.1 p.2.info m) s0.currently_registered_images }
      (build_add_font_resource_updates env s0 font_keys ctr).1 = some s1 := h1
  have hfields := apply_add_font_msgs_fields _ _ s1 h2
  have hnot : id ∉ keysOf (build_add_image_resource_updates env s0 image_keys
      (build_add_font_resource_updates env s0 font_keys ctr).2).1 := by
    intro hk
    rcases (mem_keysOf_iff id _).mp hk with ⟨msg, hmsg⟩
    have hnone := build_add_image_not_registered env s0 image_keys _ id msg hmsg
    have hnone2 : lookupA id s.currently_registered_images = none := hnone
    rw [hnone2] at hlook
    exact absurd hlook (by simp)
  have heq := lookupA_foldl_insertA_not_mem
    (fun p : ImageId × AddImageMsg => p.2.info)
    (build_add_image_resource_updates env s0 image_keys
      (build_add_font_resource_updates env s0 font_keys ctr).2).1
    s0.currently_registered_images id hnot
  have himgs : lookupA id s1.currently_registered_images = some info := by
    rw [hfields.1]
    exact heq.trans hlook
  refine ⟨himgs, ?_⟩
  intro s2 calls2 hgc2
  rw [hgc s1 s2 calls2 hgc2 id]
  have hlast : s1.last_frame_image_keys = extendSet s.last_frame_image_keys image_keys := by
    rw [hfields.2.1]
  have hcont : containsB s1.last_frame_image_keys id = true := by
    rw [hlast]
    exact (containsB_iff_mem _ id).mpr ((mem_extendSet _ _ id).mpr (Or.inr hmem))
  rw [if_pos hcont]
  exact himgs

/-- Witness for C5 at concrete inputs. -/
theorem claim_C5_image_reconciliation_witness :
    (garbage_collect_fonts_and_images
        { AppResources.empty with
            currently_registered_images :=
              [(5, { key := 9,
                     descriptor := { width := 1, height := 1,
                                     format := RawImageFormat.R8,
                                     opaqueFlag := true, allow_mipmaps := true } })] } =
      some (AppResources.empty,
            [BackendCall.update_resources [ResourceUpdate.DeleteImage 9]])) ∧
    lookupA 5 AppResources.empty.currently_registered_images =
      (if containsB
            ({ AppResources.empty with
                currently_registered_images :=
                  [(5, { key := 9,
                         descriptor := { width := 1, height := 1,
                                         format := RawImageFormat.R8,
                                         opaqueFlag := true,
                                         allow_mipmaps := true } })] } :
              AppResources).last_frame_image_keys 5 then
         lookupA 5
           ({ AppResources.empty with
               currently_registered_images :=
                 [(5, { key := 9,
                        descriptor := { width := 1, height := 1,
                                        format := RawImageFormat.R8,
                                        opaqueFlag := true,
                                        allow_mipmaps := true } })] } :
             AppResources).currently_registered_images
       else none) :=
  ⟨by decide,
   claim_C5_image_reconciliation.2.1 _ AppResources.empty
     [BackendCall.update_resources [ResourceUpdate.DeleteImage 9]] (by decide) 5⟩

/-! ## Claim C6: load failures are recoverable and local -/

/-- A font identity whose source fails to load contributes no records and
does not advance the key counter. -/
theorem add_font_updates_for_id_failed (env : Env) (s : AppResources)
    (fid : ImmediateFontId) (sizes : List Au) (ctr : Nat)
    (hreg : lookupA fid s.currently_registered_fonts = none)
    (src : FontSource) (hsrc : font_source_of s fid = some src)
    (e : FontReloadError) (hfail : src.get_bytes env = Except.error e) :
    add_font_updates_for_id env s fid sizes ctr = ([], ctr) := by
  unfold add_font_updates_for_id
  rw [hreg]
  simp only [hsrc, hfail]

/-- Every record of one font id's loop iteration carries that id. -/
theorem insert_instances_list_keys (s : AppResources) (fid : ImmediateFontId)
    (fk : FontKey) :
    ∀ (sizes : List Au) (ctr : Nat) (p : ImmediateFontId × AddFontMsg),
      p ∈ (insert_instances_list s fid fk sizes ctr).1 → p.1 = fid := by
  intro sizes
  induction sizes with
  | nil =>
      intro ctr p h
      simp [insert_instances_list] at h
  | cons sz rest ih =>
      intro ctr p h
      simp only [insert_instances_list] at h
      rcases List.mem_append.mp h with h1 | h1
      · unfold insert_font_instances at h1
        by_cases hex : (Option.bind (lookupA fid s.currently_registered_fonts)
            (fun loaded_font => lookupA sz loaded_font.font_instances)).isSome = true
        · rw [if_pos hex] at h1
          simp at h1
        · rw [if_neg hex] at h1
          rcases List.mem_singleton.mp h1 with rfl
          rfl
      · exact ih _ p h1

/-- Every record of one loop iteration of the font add phase carries the
iterated font id. -/
theorem add_font_updates_for_id_keys (env : Env) (s : AppResources)
    (fid : ImmediateFontId) (sizes : List Au) (ctr : Nat)
    (p : ImmediateFontId × AddFontMsg)
    (h : p ∈ (add_font_updates_for_id env s fid sizes ctr).1) : p.1 = fid := by
  unfold add_font_updates_for_id at h
  cases hreg : lookupA fid s.currently_registered_fonts with
  | some lf =>
      rw [hreg] at h
      exact insert_instances_list_keys s fid lf.font_key sizes ctr p h
  | none =>
      rw [hreg] at h
      cases hsrc : font_source_of s fid with
      | none => simp only [hsrc] at h; simp at h
      | some src =>
          simp only [hsrc] at h
          cases hb : src.get_bytes env with
          | error e => simp only [hb] at h; simp at h
          | ok fb =>
              simp only [hb] at h
              by_cases hemp : sizes.isEmpty = true
              · rw [if_pos hemp] at h
                simp at h
              · rw [if_neg hemp] at h
                rcases List.mem_cons.mp h with he | hm
                · rw [he]
                · exact insert_instances_list_keys s fid ctr sizes (ctr + 1) p hm

/-- No record for a font identity whose load fails appears in the font add
batch. -/
theorem build_add_font_failed_no_records (env : Env) (s : AppResources)
    (fid : ImmediateFontId)
    (hreg : lookupA fid s.currently_registered_fonts = none)
    (src : FontSource) (hsrc : font_source_of s fid = some src)
    (e : FontReloadError) (hfail : src.get_bytes env = Except.error e) :
    ∀ (fks : List (ImmediateFontId × List Au)) (ctr : Nat) (msg : AddFontMsg),
      (fid, msg) ∉ (build_add_font_resource_updates env s fks ctr).1 := by
  intro fks
  induction fks with
  | nil =>
      intro ctr msg h
      simp [build_add_font_resource_updates] at h
  | cons hd rest ih =>
      intro ctr msg h
      obtain ⟨gid, gsizes⟩ := hd
      simp only [build_add_font_resource_updates] at h
      rcases List.mem_append.mp h with h1 | h1
      · by_cases hg : gid = fid
        · subst hg
          rw [add_font_updates_for_id_failed env s gid gsizes ctr hreg src hsrc e hfail]
            at h1
          simp at h1
        · exact hg ((add_font_updates_for_id_keys env s gid gsizes ctr _ h1).symm ▸ rfl)
      · exact ih _ msg h1

/-- Dropping a failing font identity from the reference map leaves the font
add batch (and the key counter) unchanged. -/
theorem build_add_font_failed_skip (env : Env) (s : AppResources)
    (fid : ImmediateFontId)
    (hreg : lookupA fid s.currently_registered_fonts = none)
    (src : FontSource) (hsrc : font_source_of s fid = some src)
    (e : FontReloadError) (hfail : src.get_bytes env = Except.error e) :
    ∀ (fks : List (ImmediateFontId × List Au)) (ctr : Nat),
      build_add_font_resource_updates env s fks ctr =
        build_add_font_resource_updates env s
          (fks.filter (fun p => decide (p.1 ≠ fid))) ctr := by
  intro fks
  induction fks with
  | nil =>
      intro ctr
      rfl
  | cons hd rest ih =>
      intro ctr
      obtain ⟨gid, gsizes⟩ := hd
      by_cases hg : gid = fid
      · have hflt : ((gid, gsizes) :: rest).filter (fun p => decide (p.1 ≠ fid)) =
            rest.filter (fun p => decide (p.1 ≠ fid)) := by
          rw [List.filter_cons]
          simp [hg]
        have hzero : add_font_updates_for_id env s gid gsizes ctr = ([], ctr) := by
          rw [hg]
          exact add_font_updates_for_id_failed env s fid gsizes ctr hreg src hsrc e hfail
        rw [hflt]
        simp only [build_add_font_resource_updates, hzero]
        simpa using ih ctr
      · have hflt : ((gid, gsizes) :: rest).filter (fun p => decide (p.1 ≠ fid)) =
            (gid, gsizes) :: rest.filter (fun p => decide (p.1 ≠ fid)) := by
          rw [List.filter_cons]
          simp [hg]
        rw [hflt]
        simp only [build_add_font_resource_updates]
        rw [ih]

/-- A font identity that is referenced with a nonempty size set, is not
resident, and whose source loads successfully gets an add-font record. -/
theorem build_add_font_retry (env2 : Env) (s : AppResources)
    (fid : ImmediateFontId) (sizes : List Au)
    (hreg : lookupA fid s.currently_registered_fonts = none)
    (src : FontSource) (hsrc : font_source_of s fid = some src)
    (fb : List Nat × Int) (hok : src.get_bytes env2 = Except.ok fb)
    (hne : sizes ≠ []) :
    ∀ (fks : List (ImmediateFontId × List Au)) (ctr : Nat),
      (fid, sizes) ∈ fks →
      ∃ f, (fid, AddFontMsg.Font f) ∈
        (build_add_font_resource_updates env2 s fks ctr).1 := by
  intro fks
  induction fks with
  | nil =>
      intro ctr h
      simp at h
  | cons hd rest ih =>
      intro ctr h
      obtain ⟨gid, gsizes⟩ := hd
      simp only [build_add_font_resource_updates]
      rcases List.mem_cons.mp h with he | hm
      · have hgid : gid = fid := (congrArg Prod.fst he).symm
        have hgsz : gsizes = sizes := (congrArg Prod.snd he).symm
        subst hgid
        subst hgsz
        refine ⟨LoadedFont.new ctr fb.1 fb.2, List.mem_append.mpr (Or.inl ?_)⟩
        unfold add_font_updates_for_id
        rw [hreg]
        simp only [hsrc, hok]
        have hemp : gsizes.isEmpty = false := by
          cases gsizes with
          | nil => exact absurd rfl hne
          | cons a l => rfl
        rw [hemp]
        show (gid, AddFontMsg.Font (LoadedFont.new ctr fb.1 fb.2)) ∈
          (gid, AddFontMsg.Font (LoadedFont.new ctr fb.1 fb.2)) ::
            (insert_instances_list s gid ctr gsizes (ctr + 1)).1
        exact List.mem_cons_self _ _
      · rcases ih _ hm with ⟨f, hf⟩
        exact ⟨f, List.mem_append.mpr (Or.inr hf)⟩

/-- No record for an image whose load fails appears in the image add batch. -/
theorem build_add_image_failed_no_records (env : Env) (s : AppResources)
    (id : ImageId) (src : ImageSource)
    (hsrc : lookupA id s.image_sources = some src)
    (e : ImageReloadError) (hfail : src.get_bytes env = Except.error e) :
    ∀ (refs : List ImageId) (ctr : Nat) (msg : AddImageMsg),
      (id, msg) ∉ (build_add_image_resource_updates env s refs ctr).1 := by
  intro refs
  induction refs with
  | nil =>
      intro ctr msg h
      simp [build_add_image_resource_updates] at h
  | cons r rest ih =>
      intro ctr msg h
      simp only [build_add_image_resource_updates] at h
      by_cases hrg : (lookupA r s.currently_registered_images).isSome = true
      · rw [if_pos hrg] at h
        exact ih _ msg h
      · rw [if_neg hrg] at h
        by_cases hr : r = id
        · subst hr
          simp only [hsrc, hfail] at h
          exact ih _ msg h
        · cases hs2 : lookupA r s.image_sources with
          | none =>
              simp only [hs2] at h
              exact ih _ msg h
          | some src2 =>
              simp only [hs2] at h
              cases hb : src2.get_bytes env with
              | error e2 =>
                  simp only [hb] at h
                  exact ih _ msg h
              | ok dd =>
                  simp only [hb] at h
                  rcases List.mem_cons.mp h with he | hm
                  · exact hr ((congrArg Prod.fst he).symm)
                  · exact ih _ msg hm

/-- Dropping a failing image id from the reference set leaves the image add
batch (and the key counter) unchanged. -/
theorem build_add_image_failed_skip (env : Env) (s : AppResources)
    (id : ImageId) (src : ImageSource)
    (hsrc : lookupA id s.image_sources = some src)
    (e : ImageReloadError) (hfail : src.get_bytes env = Except.error e) :
    ∀ (refs : List ImageId) (ctr : Nat),
      build_add_image_resource_updates env s refs ctr =
        build_add_image_resource_updates env s
          (refs.filter (fun x => decide (x ≠ id))) ctr := by
  intro refs
  induction refs with
  | nil =>
      intro ctr
      rfl
  | cons r rest ih =>
      intro ctr
      by_cases hr : r = id
      · have hflt : (r :: rest).filter (fun x => decide (x ≠ id)) =
            rest.filter (fun x => decide (x ≠ id)) := by
          rw [List.filter_cons]
          simp [hr]
        rw [hflt]
        simp only [build_add_image_resource_updates]
        by_cases hrg : (lookupA r s.currently_registered_images).isSome = true
        · rw [if_pos hrg, ih]
        · rw [if_neg hrg, hr]
          simp only [hsrc, hfail]
          exact ih ctr
      · have hflt : (r :: rest).filter (fun x => decide (x ≠ id)) =
            r :: rest.filter (fun x => decide (x ≠ id)) := by
          rw [List.filter_cons]
          simp [hr]
        rw [hflt]
        simp only [build_add_image_resource_updates]
        by_cases hrg : (lookupA r s.currently_registered_images).isSome = true
        · rw [if_pos hrg, if_pos hrg]
          exact ih ctr
        · rw [if_neg hrg, if_neg hrg]
          cases hs2 : lookupA r s.image_sources with
          | none =>
              simp only [hs2]
              exact ih ctr
          | some src2 =>
              simp only [hs2]
              cases hb : src2.get_bytes env with
              | error e2 =>
                  simp only [hb]
                  exact ih ctr
              | ok dd =>
                  simp only [hb, ih]

/-- A referenced, non-resident image with a source that loads successfully
gets an add-image record. -/
theorem build_add_image_retry (env2 : Env) (s : AppResources) (id : ImageId)
    (src : ImageSource) (hsrc : lookupA id s.image_sources = some src)
    (dd : ImageData × ImageDescriptor) (hok : src.get_bytes env2 = Except.ok dd)
    (hreg : lookupA id s.currently_registered_images = none) :
    ∀ (refs : List ImageId) (ctr : Nat), id ∈ refs →
      ∃ msg, (id, msg) ∈ (build_add_image_resource_updates env2 s refs ctr).1 := by
  intro refs
  induction refs with
  | nil =>
      intro ctr h
      simp at h
  | cons r rest ih =>
      intro ctr h
      simp only [build_add_image_resource_updates]
      rcases List.mem_cons.mp h with he | hm
      · refine ⟨{ add_image := { key := ctr, data := dd.1, descriptor := dd.2 },
                  info := { key := ctr, descriptor := dd.2 } }, ?_⟩
        rw [he] at hreg hsrc ⊢
        simp [build_add_image_resource_updates, hreg, hsrc, hok]
      · by_cases hrg : (lookupA r s.currently_registered_images).isSome = true
        · rw [if_pos hrg]
          exact ih _ hm
        · rw [if_neg hrg]
          cases hs2 : lookupA r s.image_sources with
          | none =>
              simp only [hs2]
              exact ih _ hm
          | some src2 =>
              simp only [hs2]
              cases hb : src2.get_bytes env2 with
              | error e2 =>
                  simp only [hb]
                  exact ih _ hm
              | ok dd2 =>
                  simp only [hb]
                  rcases ih (ctr + 1) hm with ⟨msg, hmsg⟩
                  exact ⟨msg, List.mem_cons_of_mem _ hmsg⟩

/-- Claim C6: a resource whose source load fails during the add phase is
skipped for the cycle and only it: no add record is produced for it, the add
batch is exactly what it would be without that resource (other records and
minted keys unaffected), the source stores and alias registries are never
touched by the add phase, the failing resource stays non-resident through
the whole add phase, and whenever it is referenced and non-resident the load
is attempted again — under an environment in which the load succeeds, the
record is produced. -/
theorem claim_C6_load_failure_local :
    (∀ (env : Env) (s : AppResources) (id : ImageId) (src : ImageSource)
       (e : ImageReloadError) (refs : List ImageId) (ctr : Nat),
       lookupA id s.currently_registered_images = none →
       lookupA id s.image_sources = some src →
       src.get_bytes env = Except.error e →
       ((∀ msg, (id, msg) ∉ (build_add_image_resource_updates env s refs ctr).1) ∧
        build_add_image_resource_updates env s refs ctr =
          build_add_image_resource_updates env s
            (refs.filter (fun x => decide (x ≠ id))) ctr ∧
        ∀ (env2 : Env) (dd : ImageData × ImageDescriptor),
          src.get_bytes env2 = Except.ok dd → id ∈ refs →
          ∃ msg, (id, msg) ∈ (build_add_image_resource_updates env2 s refs ctr).1)) ∧
    (∀ (env : Env) (s : AppResources) (fid : ImmediateFontId) (src : FontSource)
       (e : FontReloadError) (fks : List (ImmediateFontId × List Au)) (ctr : Nat),
       lookupA fid s.currently_registered_fonts = none →
       font_source_of s fid = some src →
       src.get_bytes env = Except.error e →
       ((∀ msg, (fid, msg) ∉ (build_add_font_resource_updates env s fks ctr).1) ∧
        build_add_font_resource_updates env s fks ctr =
          build_add_font_resource_updates env s
            (fks.filter (fun p => decide (p.1 ≠ fid))) ctr ∧
        ∀ (env2 : Env) (fb : List Nat × Int) (sizes : List Au),
          src.get_bytes env2 = Except.ok fb → (fid, sizes) ∈ fks → sizes ≠ [] →
          ∃ f, (fid, AddFontMsg.Font f) ∈
            (build_add_font_resource_updates env2 s fks ctr).1)) ∧
    (∀ (s : AppResources) (fmsgs : List (ImmediateFontId × AddFontMsg))
       (imsgs : List (ImageId × AddImageMsg)) (s1 : AppResources),
       (add_resources s fmsgs imsgs).1 = some s1 →
       s1.image_sources = s.image_sources ∧ s1.font_sources = s.font_sources ∧
       s1.css_ids_to_image_ids = s.css_ids_to_image_ids ∧
       s1.css_ids_to_font_ids = s.css_ids_to_font_ids) ∧
    (∀ (env : Env) (s : AppResources) (id : ImageId) (src : ImageSource)
       (e : ImageReloadError) (fks : List (ImmediateFontId × List Au))
       (refs : List ImageId) (ctr : Nat) (s1 : AppResources)
       (calls : List BackendCall) (c : Nat),
       lookupA id s.currently_registered_images = none →
       lookupA id s.image_sources = some src →
       src.get_bytes env = Except.error e →
       add_fonts_and_images env s fks refs ctr = (some s1, calls, c) →
       lookupA id s1.currently_registered_images = none) := by
  refine ⟨?_, ?_, ?_, ?_⟩
  · intro env s id src e refs ctr hreg hsrc hfail
    exact ⟨fun msg => build_add_image_failed_no_records env s id src hsrc e hfail refs ctr msg,
           build_add_image_failed_skip env s id src hsrc e hfail refs ctr,
           fun env2 dd hok hm =>
             build_add_image_retry env2 s id src hsrc dd hok hreg refs ctr hm⟩
  · intro env s fid src e fks ctr hreg hsrc hfail
    exact ⟨fun msg => build_add_font_failed_no_records env s fid hreg src hsrc e hfail
             fks ctr msg,
           build_add_font_failed_skip env s fid hreg src hsrc e hfail fks ctr,
           fun env2 fb sizes hok hm hne =>
             build_add_font_retry env2 s fid sizes hreg src hsrc fb hok hne fks ctr hm⟩
  · intro s fmsgs imsgs s1 h
    have hf := apply_add_font_msgs_fields fmsgs _ s1 h
    exact ⟨hf.2.2.2.1, hf.2.2.2.2.1, hf.2.2.2.2.2.1, hf.2.2.2.2.2.2⟩
  · intro env s id src e fks refs ctr s1 calls c hreg hsrc hfail hadd
    have h1 : (add_fonts_and_images env s fks refs ctr).1 = some s1 := by
      rw [hadd]
    set s0 : AppResources :=
      { s with
          last_frame_font_keys := extendMap s.last_frame_font_keys fks,
          last_frame_image_keys := extendSet s.last_frame_image_keys refs }
      with hs0
    have h2 : apply_add_font_msgs
        { s0 with
            currently_registered_images :=
              (build_add_image_resource_updates env s0 refs
                (build_add_font_resource_updates env s0 fks ctr).2).1.foldl
                (fun m p => insertA p.1 p.2.info m) s0.currently_registered_images }
        (build_add_font_resource_updates env s0 fks ctr).1 = some s1 := h1
    have hfields := apply_add_font_msgs_fields _ _ s1 h2
    rw [hfields.1]
    have hnot : id ∉ keysOf (build_add_image_resource_updates env s0 refs
        (build_add_font_resource_updates env s0 fks ctr).2).1 := by
      intro hk
      rcases (mem_keysOf_iff id _).mp hk with ⟨msg, hmsg⟩
      exact build_add_image_failed_no_records env s0 id src hsrc e hfail refs _ msg hmsg
    have heq := lookupA_foldl_insertA_not_mem
      (fun p : ImageId × AddImageMsg => p.2.info)
      (build_add_image_resource_updates env s0 refs
        (build_add_font_resource_updates env s0 fks ctr).2).1
      s0.currently_registered_images id hnot
    exact heq.trans hreg

/-- Witness for C6 at concrete inputs: image 0 loads from a file the
environment cannot read, image 1 is a raw image; only image 0 is skipped. -/
theorem claim_C6_load_failure_local_witness :
    (lookupA 0 ({ AppResources.empty with
        image_sources :=
          [(0, ImageSource.File "missing"),
           (1, ImageSource.Raw { pixels := [3], image_width := 1, image_height := 1,
                                 data_format := RawImageFormat.R8 })] } :
        AppResources).currently_registered_images = none) ∧
    (ImageSource.File "missing").get_bytes
        { image_loading := true, read_file := fun _ => Except.error (),
          decode_image_data := fun _ => Except.error (),
          load_system_font := fun _ => none } =
      Except.error (ImageReloadError.Io "missing") ∧
    build_add_image_resource_updates
        { image_loading := true, read_file := fun _ => Except.error (),
          decode_image_data := fun _ => Except.error (),
          load_system_font := fun _ => none }
        ({ AppResources.empty with
            image_sources :=
              [(0, ImageSource.File "missing"),
               (1, ImageSource.Raw { pixels := [3], image_width := 1, image_height := 1,
                                     data_format := RawImageFormat.R8 })] } :
          AppResources) [0, 1] 5 =
      build_add_image_resource_updates
        { image_loading := true, read_file := fun _ => Except.error (),
          decode_image_data := fun _ => Except.error (),
          load_system_font := fun _ => none }
        ({ AppResources.empty with
            image_sources :=
              [(0, ImageSource.File "missing"),
               (1, ImageSource.Raw { pixels := [3], image_width := 1, image_height := 1,
                                     data_format := RawImageFormat.R8 })] } :
          AppResources) ([0, 1].filter (fun x => decide (x ≠ 0))) 5 :=
  ⟨by decide, by rfl,
   (claim_C6_load_failure_local.1
     { image_loading := true, read_file := fun _ => Except.error (),
       decode_image_data := fun _ => Except.error (),
       load_system_font := fun _ => none }
     ({ AppResources.empty with
         image_sources :=
           [(0, ImageSource.File "missing"),
            (1, ImageSource.Raw { pixels := [3], image_width := 1, image_height := 1,
                                  data_format := RawImageFormat.R8 })] } :
       AppResources) 0 (ImageSource.File "missing")
     (ImageReloadError.Io "missing") [0, 1] 5 (by decide) (by decide)
     (by rfl)).2.1⟩

/-! ## Claim C10: the font add batch is well-ordered for application -/

/-- Well-orderedness of a font add-record list with respect to a set of
already available font ids: every `Instance` record's font id is available
at its position, where a `Font` record makes its id available for all the
records after it. -/
def fonts_available (avail : List ImmediateFontId) :
    List (ImmediateFontId × AddFontMsg) → Prop
  | [] => True
  | (fid, AddFontMsg.Font _) :: rest => fonts_available (fid :: avail) rest
  | (fid, AddFontMsg.Instance _ _) :: rest =>
      fid ∈ avail ∧ fonts_available avail rest

/-- The available id set after processing a record list. -/
def avail_after (avail : List ImmediateFontId) :
    List (ImmediateFontId × AddFontMsg) → List ImmediateFontId
  | [] => avail
  | (fid, AddFontMsg.Font _) :: rest => avail_after (fid :: avail) rest
  | (_, AddFontMsg.Instance _ _) :: rest => avail_after avail rest

theorem fonts_available_mono :
    ∀ (msgs : List (ImmediateFontId × AddFontMsg))
      (a1 a2 : List ImmediateFontId), (∀ x ∈ a1, x ∈ a2) →
      fonts_available a1 msgs → fonts_available a2 msgs := by
  intro msgs
  induction msgs with
  | nil =>
      intro a1 a2 _ _
      trivial
  | cons hd rest ih =>
      intro a1 a2 hsub h
      obtain ⟨fid, msg⟩ := hd
      cases msg with
      | Font f =>
          simp only [fonts_available] at h ⊢
          refine ih _ _ ?_ h
          intro x hx
          rcases List.mem_cons.mp hx with rfl | hx2
          · exact List.mem_cons_self _ _
          · exact List.mem_cons_of_mem _ (hsub x hx2)
      | Instance fi sz =>
          simp only [fonts_available] at h ⊢
          exact ⟨hsub fid h.1, ih _ _ hsub h.2⟩

theorem avail_after_extends :
    ∀ (msgs : List (ImmediateFontId × AddFontMsg))
      (avail : List ImmediateFontId) (x : ImmediateFontId),
      x ∈ avail → x ∈ avail_after avail msgs := by
  intro msgs
  induction msgs with
  | nil =>
      intro avail x h
      exact h
  | cons hd rest ih =>
      intro avail x h
      obtain ⟨fid, msg⟩ := hd
      cases msg with
      | Font f => exact ih _ x (List.mem_cons_of_mem _ h)
      | Instance fi sz => exact ih _ x h

theorem fonts_available_append :
    ∀ (l1 l2 : List (ImmediateFontId × AddFontMsg))
      (avail : List ImmediateFontId),
      fonts_available avail l1 →
      fonts_available (avail_after avail l1) l2 →
      fonts_available avail (l1 ++ l2) := by
  intro l1
  induction l1 with
  | nil =>
      intro l2 avail _ h2
      exact h2
  | cons hd rest ih =>
      intro l2 avail h1 h2
      obtain ⟨fid, msg⟩ := hd
      cases msg with
      | Font f =>
          simp only [fonts_available] at h1 ⊢
          exact ih l2 _ h1 h2
      | Instance fi sz =>
          simp only [fonts_available] at h1 ⊢
          exact ⟨h1.1, ih l2 _ h1.2 h2⟩

/-- Every record of `insert_font_instances` over a size list is an
`Instance` record for the iterated font id. -/
theorem insert_instances_list_shape (s : AppResources) (fid : ImmediateFontId)
    (fk : FontKey) :
    ∀ (sizes : List Au) (ctr : Nat) (p : ImmediateFontId × AddFontMsg),
      p ∈ (insert_instances_list s fid fk sizes ctr).1 →
      ∃ fi sz, p = (fid, AddFontMsg.Instance fi sz) := by
  intro sizes
  induction sizes with
  | nil =>
      intro ctr p h
      simp [insert_instances_list] at h
  | cons sz rest ih =>
      intro ctr p h
      simp only [insert_instances_list] at h
      rcases List.mem_append.mp h with h1 | h1
      · unfold insert_font_instances at h1
        by_cases hex : (Option.bind (lookupA fid s.currently_registered_fonts)
            (fun loaded_font => lookupA sz loaded_font.font_instances)).isSome = true
        · rw [if_pos hex] at h1
          simp at h1
        · rw [if_neg hex] at h1
          rcases List.mem_singleton.mp h1 with rfl
          exact ⟨_, _, rfl⟩
      · exact ih _ p h1

theorem fonts_available_instances :
    ∀ (l : List (ImmediateFontId × AddFontMsg)) (avail : List ImmediateFontId)
      (fid : ImmediateFontId), fid ∈ avail →
      (∀ p ∈ l, ∃ fi sz, p = (fid, AddFontMsg.Instance fi sz)) →
      fonts_available avail l := by
  intro l
  induction l with
  | nil =>
      intro avail fid _ _
      trivial
  | cons hd rest ih =>
      intro avail fid hmem hshape
      rcases hshape hd (List.mem_cons_self _ _) with ⟨fi, sz, rfl⟩
      simp only [fonts_available]
      exact ⟨hmem, ih avail fid hmem
        (fun p hp => hshape p (List.mem_cons_of_mem _ hp))⟩

/-- One loop iteration of the font add phase is well-ordered with respect to
any available set covering the currently registered fonts. -/
theorem add_font_updates_for_id_available (env : Env) (s : AppResources)
    (gid : ImmediateFontId) (sizes : List Au) (ctr : Nat)
    (avail : List ImmediateFontId)
    (hsub : ∀ x ∈ keysOf s.currently_registered_fonts, x ∈ avail) :
    fonts_available avail (add_font_updates_for_id env s gid sizes ctr).1 := by
  unfold add_font_updates_for_id
  split
  · next lf hreg =>
      have hmem : gid ∈ avail :=
        hsub gid ((lookupA_isSome_iff_mem_keys gid _).mp (by rw [hreg]; rfl))
      exact fonts_available_instances _ avail gid hmem
        (insert_instances_list_shape s gid lf.font_key sizes ctr)
  · split
    · trivial
    · next src hsrc =>
        split
        · trivial
        · next fb hb =>
            split
            · trivial
            · show fonts_available avail
                ((gid, AddFontMsg.Font (LoadedFont.new ctr fb.1 fb.2)) ::
                  (insert_instances_list s gid ctr sizes (ctr + 1)).1)
              simp only [fonts_available]
              exact fonts_available_instances _ _ gid (List.mem_cons_self _ _)
                (insert_instances_list_shape s gid ctr sizes (ctr + 1))

/-- The whole font add batch is well-ordered with respect to any available
set covering the currently registered fonts. -/
theorem build_add_font_available (env : Env) (s : AppResources) :
    ∀ (fks : List (ImmediateFontId × List Au)) (ctr : Nat)
      (avail : List ImmediateFontId),
      (∀ x ∈ keysOf s.currently_registered_fonts, x ∈ avail) →
      fonts_available avail (build_add_font_resource_updates env s fks ctr).1 := by
  intro fks
  induction fks with
  | nil =>
      intro ctr avail _
      trivial
  | cons hd rest ih =>
      intro ctr avail hsub
      obtain ⟨gid, gsizes⟩ := hd
      simp only [build_add_font_resource_updates]
      refine fonts_available_append _ _ avail
        (add_font_updates_for_id_available env s gid gsizes ctr avail hsub) ?_
      refine ih _ _ ?_
      intro x hx
      exact avail_after_extends _ avail x (hsub x hx)

/-- Applying a well-ordered font add-record list never hits the
`get_mut(..).unwrap()` panic. -/
theorem apply_add_font_msgs_total :
    ∀ (msgs : List (ImmediateFontId × AddFontMsg)) (s1 : AppResources),
      fonts_available (keysOf s1.currently_registered_fonts) msgs →
      (apply_add_font_msgs s1 msgs).isSome = true := by
  intro msgs
  induction msgs with
  | nil =>
      intro s1 _
      rfl
  | cons hd rest ih =>
      intro s1 h
      obtain ⟨fid, msg⟩ := hd
      cases msg with
      | Font f =>
          simp only [fonts_available] at h
          simp only [apply_add_font_msgs]
          refine ih _ (fonts_available_mono rest _ _ ?_ h)
          intro x hx
          rcases List.mem_cons.mp hx with h3 | h3
          · exact (mem_keys_insertA x fid _ _).mpr (Or.inl h3)
          · exact (mem_keys_insertA x fid _ _).mpr (Or.inr h3)
      | Instance fi sz =>
          simp only [fonts_available] at h
          simp only [apply_add_font_msgs]
          cases hl : lookupA fid s1.currently_registered_fonts with
          | none =>
              exact absurd ((lookupA_isSome_iff_mem_keys fid _).mpr h.1)
                (by rw [hl]; simp)
          | some lf =>
              refine ih _ (fonts_available_mono rest _ _ ?_ h.2)
              intro x hx
              exact (mem_keys_insertA x fid _ _).mpr (Or.inr hx)

/-- Claim C10: in the font add batch, every `Instance` record's font
identity either is preceded by a `Font` record for the same identity or is
already registered (formalized by `fonts_available` over the registered key
set), and therefore applying the batch in order in `add_resources` never
fails (the `get_mut(..).unwrap()` never panics), for every environment,
cache state, reference map, key counter and image batch. -/
theorem claim_C10_add_batch_well_ordered (env : Env) (s : AppResources)
    (fks : List (ImmediateFontId × List Au)) (ctr : Nat)
    (imsgs : List (ImageId × AddImageMsg)) :
    fonts_available (keysOf s.currently_registered_fonts)
      (build_add_font_resource_updates env s fks ctr).1 ∧
    (add_resources s (build_add_font_resource_updates env s fks ctr).1
      imsgs).1.isSome = true := by
  have h := build_add_font_available env s fks ctr
    (keysOf s.currently_registered_fonts) (fun x hx => hx)
  exact ⟨h, apply_add_font_msgs_total _ _ h⟩

end Azul
